import Mathlib

/-!
Verification of the planet_sim command-ordering protocols against their
specification. The definitions below are a shallow embedding of the Rust
sources: each definition's doc comment names the source item it embeds.
Modules of the repository that are not part of the examined sources are
modelled from the specification and marked `Modelled from the spec:`.

Determinizations applied throughout: Rust `HashMap`/`HashSet` iteration
order is unspecified, so maps whose entries are iterated are embedded as
association lists in insertion order, and maps used only through
point lookups are embedded as (total or partial) functions; `usize`
arithmetic is embedded as `Nat` with explicit underflow errors where the
source would panic in a debug build.
-/

namespace PlanetSim

/-- Process identifier (`ProcessId` in `fantoch/src/id.rs`, a `u64`). -/
abbrev ProcessId := Nat

/-- Key of the key-value store (`Key` in `kvs.rs`, a `String`). -/
abbrev Key := String

/-- Command identifier: originating process plus per-process sequence
(`Dot` in `fantoch/src/id.rs`; spec section 3, totally ordered by
`(ProcessId, Sequence)`). -/
structure Dot where
  source : ProcessId
  sequence : Nat
deriving DecidableEq

/-- Strict order on dots: lexicographic on `(source, sequence)` (spec 3). -/
def dotLt (a b : Dot) : Prop :=
  a.source < b.source ∨ (a.source = b.source ∧ a.sequence < b.sequence)

instance : DecidableRel dotLt := fun a b => by
  unfold dotLt; infer_instance

/-- Request identifier issued by a client (`Rifl` in `fantoch/src/id.rs`:
pair of client id and client sequence; spec 3). -/
structure Rifl where
  client : Nat
  seq : Nat
deriving DecidableEq

/-- Operation on one key (`KVOp` in `kvs.rs`; spec 3: `Get` or `Put(value)`). -/
inductive KVOp where
  | get
  | put (value : String)
deriving DecidableEq

/-- Result of one operation: the prior value of the key (`KVOpResult`). -/
abbrev KVOpResult := Option String

/-- Modelled from the spec: `Command` (fantoch `command.rs`, not under `src/`).
Spec 3: `{rifl, map from key to op}`; embedded as the association list of its
entries. -/
structure Command where
  rifl : Rifl
  ops : List (Key × KVOp)
deriving DecidableEq

/-- Number of keys accessed by a command (`Command::key_count`). -/
def Command.keyCount (c : Command) : Nat :=
  c.ops.length

/-- Two commands conflict when their key sets intersect (spec 3). -/
def Command.conflicts (c other : Command) : Bool :=
  c.ops.any (fun ko => other.ops.any (fun ko' => ko.1 = ko'.1))

/-- Rust panics that the embedded code can raise (debug-build `usize`
underflow, `expect`/`assert!` failures, `unimplemented!`). -/
inductive RustPanic where
  | usizeUnderflow
  | expectFailed (msg : String)
  | assertFailed (msg : String)
  | slowPathUnimplemented
deriving DecidableEq

/-- Modelled from the spec: `BaseProcess` (fantoch `protocol/base.rs`, not
under `src/`). Spec 4.1: identity, configuration `(n, f)`, the computed
`fast_quorum`, the `all` set and the next-dot counter. -/
structure BaseProcess where
  processId : ProcessId
  n : Nat
  f : Nat
  all : List ProcessId
  fastQuorum : List ProcessId
  dotCounter : Nat

/-- Modelled from the spec: `next_dot` advances the local sequence (spec 4.1;
sequences start at 1). -/
def BaseProcess.nextDot (bp : BaseProcess) : Dot × BaseProcess :=
  (⟨bp.processId, bp.dotCounter + 1⟩, { bp with dotCounter := bp.dotCounter + 1 })

/-! ## The Basic protocol (`src/fantoch/src/protocol/basic.rs`) -/

/-- Messages of the Basic protocol (`Message` in `basic.rs`). The two GC
payloads (`VClock<ProcessId>` and the stable ranges) are embedded as
association lists. -/
inductive BasicMessage where
  | mstore (dot : Dot) (cmd : Command)
  | mstoreack (dot : Dot)
  | mcommit (dot : Dot) (cmd : Command)
  | mcommitdot (dot : Dot)
  | mgarbagecollection (committed : List (ProcessId × Nat))
  | mstable (stable : List (ProcessId × Nat × Nat))
deriving DecidableEq

/-- Actions a protocol handler returns (`Action` in fantoch `protocol/mod.rs`,
not under `src/`; constructors as used by `basic.rs`: `ToSend {target, msg}`,
`ToForward {msg}`, `Nothing`; the target `HashSet` is embedded as a list). -/
inductive Action (M : Type) where
  | toSend (target : List ProcessId) (msg : M)
  | toForward (msg : M)
  | nothing
deriving DecidableEq

/-- Per-dot state of the Basic protocol (`BasicInfo` in `basic.rs`). -/
structure BasicInfo where
  cmd : Option Command
  missingAcks : Nat
deriving DecidableEq

/-- `BasicInfo::new` (`Info for BasicInfo`, `basic.rs`): bottom value with
`missing_acks = fast_quorum_size`. -/
def BasicInfo.new (_processId : ProcessId) (_n _f fastQuorumSize : Nat) : BasicInfo :=
  { cmd := none, missingAcks := fastQuorumSize }

/-- Modelled from the spec: `CommandsInfo` (fantoch `protocol/mod.rs`, not
under `src/`). Spec 4.2: `get(dot)` returns a mutable handle, creating a
default entry if absent — embedded as a total map whose default is
`BasicInfo.new`; presence of an entry is never observed through `get`. -/
structure BasicCommandsInfo where
  processId : ProcessId
  n : Nat
  f : Nat
  fastQuorumSize : Nat
  dotToInfo : Dot → BasicInfo

/-- One executor hand-off entry (`BasicExecutionInfo::new(rifl, key, op)` in
fantoch `executor/basic.rs`, not under `src/`; spec 4.3: one entry per key). -/
structure BasicExecutionInfo where
  rifl : Rifl
  key : Key
  op : KVOp
deriving DecidableEq

/-- The `Basic` protocol state (`Basic` in `basic.rs`). -/
structure Basic where
  bp : BaseProcess
  cmds : BasicCommandsInfo
  toExecutor : List BasicExecutionInfo

/-- Updates the info stored for one dot. -/
def Basic.setInfo (p : Basic) (dot : Dot) (info : BasicInfo) : Basic :=
  { p with cmds := { p.cmds with dotToInfo := Function.update p.cmds.dotToInfo dot info } }

/-- `Basic::handle_submit`: assign the dot (given or fresh) and broadcast
`MStore{dot, cmd}` to the fast quorum. -/
def Basic.handleSubmit (p : Basic) (dot : Option Dot) (cmd : Command) :
    Basic × Action BasicMessage :=
  match dot with
  | some dot => (p, .toSend p.bp.fastQuorum (.mstore dot cmd))
  | none =>
    let (dot, bp) := p.bp.nextDot
    ({ p with bp := bp }, .toSend bp.fastQuorum (.mstore dot cmd))

/-- `Basic::handle_mstore`: record the command and reply `MStoreAck{dot}` to
the sender only. -/
def Basic.handleMStore (p : Basic) (sender : ProcessId) (dot : Dot) (cmd : Command) :
    Basic × Action BasicMessage :=
  let info := p.cmds.dotToInfo dot
  let info := { info with cmd := some cmd }
  (p.setInfo dot info, .toSend [sender] (.mstoreack dot))

/-- `Basic::handle_mstoreack`: decrement `missing_acks` (a `usize`: the
decrement is unconditional and underflows — a debug-build panic — when the
counter is already zero); when it reaches zero, broadcast
`MCommit{dot, cmd}` to `all` (the command must exist: `expect`). The sender
is not consulted at all. -/
def Basic.handleMStoreAck (p : Basic) (_sender : ProcessId) (dot : Dot) :
    Except RustPanic (Basic × Action BasicMessage) :=
  let info := p.cmds.dotToInfo dot
  if info.missingAcks = 0 then
    .error .usizeUnderflow
  else
    let info := { info with missingAcks := info.missingAcks - 1 }
    let p := p.setInfo dot info
    if info.missingAcks = 0 then
      match info.cmd with
      | none => .error (.expectFailed "command should exist")
      | some cmd => .ok (p, .toSend p.bp.all (.mcommit dot cmd))
    else
      .ok (p, .nothing)

/-- `Basic::handle_mcommit`: record the command, append one execution entry
per key to `to_executor`, and forward `MCommitDot{dot}` to self. There is no
check whether the dot was already committed. -/
def Basic.handleMCommit (p : Basic) (_sender : ProcessId) (dot : Dot) (cmd : Command) :
    Basic × Action BasicMessage :=
  let info := p.cmds.dotToInfo dot
  let info := { info with cmd := some cmd }
  let p := p.setInfo dot info
  let executionInfo := cmd.ops.map (fun ko => BasicExecutionInfo.mk cmd.rifl ko.1 ko.2)
  ({ p with toExecutor := p.toExecutor ++ executionInfo },
   .toForward (.mcommitdot dot))

/-- Delivers a sequence of `MStoreAck` messages for `dot` to the coordinator,
collecting the handler's actions in order (first error aborts, as the Rust
panic would). -/
def Basic.ackRun (p : Basic) (dot : Dot) (senders : List ProcessId) :
    Except RustPanic (Basic × List (Action BasicMessage)) :=
  match senders with
  | [] => .ok (p, [])
  | s :: rest =>
    match p.handleMStoreAck s dot with
    | .error e => .error e
    | .ok (p', a) =>
      match p'.ackRun dot rest with
      | .error e => .error e
      | .ok (p'', acts) => .ok (p'', a :: acts)

/-! ## The pending aggregator (`src/src/executor/pending.rs`) -/

/-- Modelled from the spec: `CommandResult` (fantoch `command.rs`, not under
`src/`). Spec 3: a mapping from key to prior value, produced by consuming a
command; spec 4.6 (aggregated mode): created empty for a known key count and
filled in by partial results until complete. -/
structure CommandResult where
  rifl : Rifl
  keyCount : Nat
  results : List (Key × KVOpResult)
deriving DecidableEq

/-- Modelled from the spec: `CommandResult::new(rifl, key_count)` starts with
no partial result recorded. -/
def CommandResult.new (rifl : Rifl) (keyCount : Nat) : CommandResult :=
  { rifl := rifl, keyCount := keyCount, results := [] }

/-- Modelled from the spec: `CommandResult::add_partial` records one key's
result and reports whether the result is now complete (spec 4.6). -/
def CommandResult.addPartial (cr : CommandResult) (key : Key) (res : KVOpResult) :
    CommandResult × Bool :=
  let cr := { cr with results := cr.results ++ [(key, res)] }
  (cr, cr.results.length = cr.keyCount)

/-- Modelled from the spec: `CommandResult::increment_key_count`. -/
def CommandResult.incrementKeyCount (cr : CommandResult) : CommandResult :=
  { cr with keyCount := cr.keyCount + 1 }

/-- Output of the executor (`ExecutorResult` in `executor/mod.rs`, not under
`src/`): either a full `Ready` result or a `Partial(rifl, key, result)`
(constructor renamed `partialRes` here). -/
inductive ExecutorResult where
  | ready (result : CommandResult)
  | partialRes (rifl : Rifl) (key : Key) (result : KVOpResult)
deriving DecidableEq

/-- The pending-command tracker (`Pending` in `executor/pending.rs`). Its two
`HashMap`s are used only through point lookups, so they are embedded as
partial maps. -/
structure Pending where
  parallelExecutor : Bool
  pending : Rifl → Option CommandResult
  parallelPending : Rifl → Option Nat

/-- `Pending::new(parallel_executor)`: both maps empty. -/
def Pending.new (parallelExecutor : Bool) : Pending :=
  { parallelExecutor := parallelExecutor
    pending := fun _ => none
    parallelPending := fun _ => none }

/-- `Pending::register`: insert the rifl with its key count (parallel mode) or
a fresh `CommandResult` (aggregated mode), returning whether the rifl was not
registered before; `HashMap::insert` replaces any previous entry. -/
def Pending.register (p : Pending) (cmd : Command) : Bool × Pending :=
  let rifl := cmd.rifl
  let keyCount := cmd.keyCount
  if p.parallelExecutor then
    ((p.parallelPending rifl).isNone,
     { p with parallelPending := Function.update p.parallelPending rifl (some keyCount) })
  else
    let cmdResult := CommandResult.new rifl keyCount
    ((p.pending rifl).isNone,
     { p with pending := Function.update p.pending rifl (some cmdResult) })

/-- `Pending::register_rifl`: raise the number of expected notifications on a
rifl by one (creating the entry if absent). -/
def Pending.registerRifl (p : Pending) (rifl : Rifl) : Pending :=
  if p.parallelExecutor then
    let keyCount := (p.parallelPending rifl).getD 0
    { p with parallelPending := Function.update p.parallelPending rifl (some (keyCount + 1)) }
  else
    let cmdResult := (p.pending rifl).getD (CommandResult.new rifl 0)
    { p with pending :=
        Function.update p.pending rifl (some cmdResult.incrementKeyCount) }

/-- `Pending::add_partial`: a partial for an unregistered rifl is ignored;
otherwise, in parallel mode the outstanding counter is decremented (a `usize`:
underflow is a debug-build panic, see the source's TODO) and the partial
returned as-is, and in aggregated mode the partial is accumulated and the full
result returned once complete. The `partial` closure is embedded as the pair
it produces (it is only invoked on the registered paths). -/
def Pending.addPartial (p : Pending) (rifl : Rifl) (partialPair : Key × KVOpResult) :
    Except RustPanic (Option ExecutorResult × Pending) :=
  if p.parallelExecutor then
    match p.parallelPending rifl with
    | none => .ok (none, p)
    | some count =>
      if count = 0 then .error .usizeUnderflow
      else
        let count' := count - 1
        let pp :=
          if count' = 0 then Function.update p.parallelPending rifl none
          else Function.update p.parallelPending rifl (some count')
        .ok (some (.partialRes rifl partialPair.1 partialPair.2),
             { p with parallelPending := pp })
  else
    match p.pending rifl with
    | none => .ok (none, p)
    | some cmdResult =>
      let (cmdResult', isReady) := cmdResult.addPartial partialPair.1 partialPair.2
      if isReady then
        .ok (some (.ready cmdResult'),
             { p with pending := Function.update p.pending rifl none })
      else
        .ok (none, { p with pending := Function.update p.pending rifl (some cmdResult') })

/-! ## Inter-worker channels (`src/src/run/task/chan.rs`) -/

/-- Error of a non-blocking send (`tokio::sync::mpsc::error::TrySendError`,
external library; payload dropped). -/
inductive TrySendError where
  | full
  | closed
deriving DecidableEq

/-- Modelled from the spec: the bounded tokio mpsc channel underneath
`ChannelSender` (external library). Spec 5 (Backpressure): outbound queues are
bounded; a non-blocking send fails when the buffer is at capacity, an awaited
send waits for capacity and then enqueues. -/
structure BoundedChannel (M : Type) where
  capacity : Nat
  buffer : List M
  closed : Bool

/-- Modelled from the spec: `Sender::try_send` succeeds iff the channel is
open and below capacity. -/
def BoundedChannel.trySend {M : Type} (c : BoundedChannel M) (v : M) :
    Except TrySendError (BoundedChannel M) :=
  if c.closed then .error .closed
  else if c.capacity ≤ c.buffer.length then .error .full
  else .ok { c with buffer := c.buffer ++ [v] }

/-- Modelled from the spec: the receiver takes the oldest buffered message. -/
def BoundedChannel.recvOne {M : Type} (c : BoundedChannel M) : BoundedChannel M :=
  { c with buffer := c.buffer.drop 1 }

/-- A channel sender with an optional name (`ChannelSender` in `chan.rs`). -/
structure ChannelSender (M : Type) where
  name : Option String
  chan : BoundedChannel M

/-- What one call to `ChannelSender::send` did: the updated sender, whether it
returned `Ok`, whether it fell back to the awaited `send`, and the "channel is
full" warning it printed, if any. -/
structure SendResult (M : Type) where
  sender : ChannelSender M
  isOk : Bool
  usedAwait : Bool
  warning : Option String

/-- `ChannelSender::send`: first attempt `try_send`; if the queue is full,
print the (named or unnamed) "channel is full" warning and fall back to the
awaited `send` (modelled as enqueueing once capacity frees up); any other
error is returned upstream. -/
def ChannelSender.send {M : Type} (s : ChannelSender M) (v : M) : SendResult M :=
  match s.chan.trySend v with
  | .ok chan' => ⟨{ s with chan := chan' }, true, false, none⟩
  | .error .full =>
    let warning := match s.name with
      | some n => "named channel " ++ n ++ " is full"
      | none => "unnamed channel is full"
    ⟨{ s with chan := { s.chan with buffer := s.chan.buffer ++ [v] } },
     true, true, some warning⟩
  | .error .closed => ⟨s, false, false, none⟩

/-! ## The Newt protocol (`src/src/protocol/newt/mod.rs`) -/

/-- A range of votes by one process on one key (`VoteRange` in
`src/src/protocol/common/table/mod.rs`; `new` asserts `start <= end`). -/
structure VoteRange where
  by_ : ProcessId
  start : Nat
  end_ : Nat
deriving DecidableEq

/-- Votes by a single process on the keys of one command (`ProcessVotes`:
`HashMap<Key, VoteRange>`, embedded as an association list in insertion
order). -/
abbrev ProcessVotes := List (Key × VoteRange)

/-- Appends to the entry of `key`, creating it first when absent
(`HashMap::entry(key).or_insert_with(Vec::new)` followed by pushes). -/
def appendKeyVotes (votes : List (Key × List VoteRange)) (key : Key)
    (new : List VoteRange) : List (Key × List VoteRange) :=
  match votes with
  | [] => [(key, new)]
  | (k, vs) :: rest =>
    if key = k then (k, vs ++ new) :: rest
    else (k, vs) :: appendKeyVotes rest key new

/-- All votes on some command (`Votes` in `common/table/mod.rs`: a
`HashMap<Key, Vec<VoteRange>>`, embedded as an association list). -/
structure Votes where
  votes : List (Key × List VoteRange)
deriving DecidableEq

/-- `Votes::new`: empty. -/
def Votes.new : Votes := ⟨[]⟩

/-- `Votes::add`: push each vote of a `ProcessVotes` onto its key's votes. -/
def Votes.add (v : Votes) (processVotes : ProcessVotes) : Votes :=
  ⟨processVotes.foldl (fun acc kv => appendKeyVotes acc kv.1 [kv.2]) v.votes⟩

/-- `Votes::merge`: extend each key's votes with the remote votes. -/
def Votes.merge (v : Votes) (remote : Votes) : Votes :=
  ⟨remote.votes.foldl (fun acc kv => appendKeyVotes acc kv.1 kv.2) v.votes⟩

/-- Modelled from the spec: `KeysClocks` (`newt/clocks.rs`, not under `src/`).
Spec 4.3: per-key timestamps; `clock(command)` is at least the maximum per-key
timestamp of the command's keys; `process_votes(command, target)` returns one
`VoteRange` per key that extends each key's timestamp up to `target`, after
which each extended key's clock equals `target` (clocks never decrease, so a
key already at or above `target` yields no vote). -/
structure KeysClocks where
  processId : ProcessId
  clocks : Key → Nat

/-- Modelled from the spec: the maximum per-key timestamp over the command's
keys (`KeysClocks::clock`). -/
def KeysClocks.clock (kc : KeysClocks) (cmd : Command) : Nat :=
  cmd.ops.foldl (fun m ko => max m (kc.clocks ko.1)) 0

/-- Modelled from the spec: `KeysClocks::process_votes` (see `KeysClocks`). -/
def KeysClocks.processVotes (kc : KeysClocks) (cmd : Command) (target : Nat) :
    ProcessVotes × KeysClocks :=
  cmd.ops.foldl
    (fun acc ko =>
      let (pv, kc') := acc
      let cur := kc'.clocks ko.1
      if cur < target then
        (pv ++ [(ko.1, ⟨kc'.processId, cur + 1, target⟩)],
         { kc' with clocks := Function.update kc'.clocks ko.1 target })
      else (pv, kc'))
    ([], kc)

/-- Modelled from the spec: `QuorumClocks` (`newt/clocks.rs`, not under
`src/`). Spec 4.3: tracks the contributors seen so far, the maximum reported
clock and how many contributors reported it; `add(pid, clock)` returns
`(max_clock, max_count)` (duplicates are rejected by the caller through
`contains`); `all()` holds when the contributor count equals the quorum
size. -/
structure QuorumClocks where
  q : Nat
  participants : List ProcessId
  maxClock : Nat
  maxCount : Nat
deriving DecidableEq

/-- Modelled from the spec: `QuorumClocks::new(q)`. -/
def QuorumClocks.new (q : Nat) : QuorumClocks :=
  { q := q, participants := [], maxClock := 0, maxCount := 0 }

/-- Modelled from the spec: whether `pid` already contributed. -/
def QuorumClocks.contains (qc : QuorumClocks) (pid : ProcessId) : Bool :=
  qc.participants.contains pid

/-- Modelled from the spec: record one contribution and return the updated
`(max_clock, max_count)`. -/
def QuorumClocks.add (qc : QuorumClocks) (pid : ProcessId) (clock : Nat) :
    (Nat × Nat) × QuorumClocks :=
  let (maxClock, maxCount) :=
    if qc.maxClock < clock then (clock, 1)
    else if clock = qc.maxClock then (qc.maxClock, qc.maxCount + 1)
    else (qc.maxClock, qc.maxCount)
  ((maxClock, maxCount),
   { qc with participants := qc.participants ++ [pid],
             maxClock := maxClock, maxCount := maxCount })

/-- Modelled from the spec: `all()` (see `QuorumClocks`). -/
def QuorumClocks.all (qc : QuorumClocks) : Bool :=
  qc.participants.length = qc.q

/-- Modelled from the spec: `MultiVotesTable` (`newt/votes_table.rs`, not
under `src/`). The spec (4.3) records only that a committed command and its
ordering constraint are added to the table for execution; the release rule is
not specified, so the table is embedded as an append-only record that
releases nothing. No theorem below depends on the table's behaviour. -/
structure MultiVotesTable where
  entries : List (Dot × Option Command × Nat × Votes)

/-- Modelled from the spec: record one committed command (see
`MultiVotesTable`). -/
def MultiVotesTable.add (t : MultiVotesTable) (dot : Dot) (cmd : Option Command)
    (clock : Nat) (votes : Votes) :
    Option (List (Key × List (Rifl × KVOp))) × MultiVotesTable :=
  (none, { entries := t.entries ++ [(dot, cmd, clock, votes)] })

/-- Modelled from the spec: record phantom votes (see `MultiVotesTable`). -/
def MultiVotesTable.addProcessVotes (t : MultiVotesTable) (_pv : ProcessVotes) :
    Option (List (Key × List (Rifl × KVOp))) × MultiVotesTable :=
  (none, t)

/-- Modelled from the spec: the key-value store (`kvs.rs`, not under `src/`).
Spec 6: `execute(&key, op)` is deterministic and returns the prior value. -/
structure KVStore where
  store : Key → Option String

/-- Modelled from the spec: apply one operation, returning the prior value. -/
def KVStore.execute (s : KVStore) (key : Key) (op : KVOp) : KVOpResult × KVStore :=
  match op with
  | .get => (s.store key, s)
  | .put value => (s.store key, { s with store := Function.update s.store key (some value) })

/-- Modelled from the spec: the pending tracker used by this (older) `Newt`
(`command.rs`'s `Pending`, not under `src/`): spec 4.6 aggregated mode — a
`CommandResult` per rifl, filled by partials, emitted once complete. -/
structure NewtPending where
  entries : Rifl → Option CommandResult

/-- Modelled from the spec: `Pending::start`: begin tracking a command. -/
def NewtPending.start (p : NewtPending) (cmd : Command) : NewtPending :=
  { entries := Function.update p.entries cmd.rifl
      (some (CommandResult.new cmd.rifl cmd.keyCount)) }

/-- Modelled from the spec: add a partial result; unknown rifls are ignored,
complete results are removed and returned. -/
def NewtPending.addPartial (p : NewtPending) (rifl : Rifl) (key : Key)
    (res : KVOpResult) : Option CommandResult × NewtPending :=
  match p.entries rifl with
  | none => (none, p)
  | some cr =>
    let (cr', isReady) := cr.addPartial key res
    if isReady then (some cr', { entries := Function.update p.entries rifl none })
    else (none, { entries := Function.update p.entries rifl (some cr') })

/-- Status of a command (`Status` in `newt/mod.rs`). -/
inductive Status where
  | START
  | COLLECT
  | COMMIT
deriving DecidableEq

/-- Per-dot protocol state (`CommandInfo` in `newt/mod.rs`). -/
structure CommandInfo where
  status : Status
  quorum : List ProcessId
  cmd : Option Command
  clock : Nat
  votes : Votes
  quorumClocks : QuorumClocks

/-- `CommandInfo::new(q)`. -/
def CommandInfo.new (q : Nat) : CommandInfo :=
  { status := .START, quorum := [], cmd := none, clock := 0,
    votes := Votes.new, quorumClocks := QuorumClocks.new q }

/-- Per-dot state table (`CommandsInfo` in `newt/mod.rs`): `get` creates an
empty `CommandInfo::new(q)` when absent, so the `HashMap` is embedded as a
total map with that default (presence is never observed otherwise). -/
structure NewtCommandsInfo where
  q : Nat
  dotToInfo : Dot → CommandInfo

/-- `CommandsInfo::get`. -/
def NewtCommandsInfo.get (ci : NewtCommandsInfo) (dot : Dot) : CommandInfo :=
  ci.dotToInfo dot

/-- Updates the info stored for one dot. -/
def NewtCommandsInfo.set (ci : NewtCommandsInfo) (dot : Dot) (info : CommandInfo) :
    NewtCommandsInfo :=
  { ci with dotToInfo := Function.update ci.dotToInfo dot info }

/-- Messages of the Newt protocol (`Message` in `newt/mod.rs`). -/
inductive NewtMessage where
  | mcollect (dot : Dot) (cmd : Command) (quorum : List ProcessId) (clock : Nat)
  | mcollectack (dot : Dot) (clock : Nat) (processVotes : ProcessVotes)
  | mcommit (dot : Dot) (cmd : Option Command) (clock : Nat) (votes : Votes)
  | mphantom (dot : Dot) (processVotes : ProcessVotes)

/-- What a Newt handler sends (`ToSend` in the old `protocol/mod.rs`, not
under `src/`; the constructors used by `newt/mod.rs` are
`ToProcesses(from, targets, msg)` and `Nothing`). -/
inductive ToSend (M : Type) where
  | toProcesses (sender : ProcessId) (target : List ProcessId) (msg : M)
  | nothing

/-- The `Newt` protocol state (`Newt` in `newt/mod.rs`). -/
structure Newt where
  bp : BaseProcess
  keysClocks : KeysClocks
  cmdsInfo : NewtCommandsInfo
  table : MultiVotesTable
  store : KVStore
  pending : NewtPending
  commandsReady : List CommandResult

/-- `Newt::execute`: apply released `(key, rifl, op)` triples to the store and
collect the command results that became ready. -/
def Newt.execute (p : Newt) (toExecute : Option (List (Key × List (Rifl × KVOp)))) :
    Newt :=
  match toExecute with
  | none => p
  | some toExecute =>
    toExecute.foldl
      (fun p kv =>
        kv.2.foldl
          (fun p rop =>
            let (opResult, store') := p.store.execute kv.1 rop.2
            let (ready, pending') := p.pending.addPartial rop.1 kv.1 opResult
            { p with store := store', pending := pending',
                     commandsReady := p.commandsReady ++ ready.toList })
          p)
      p

/-- `Newt::handle_submit`: start the command in `Pending`, take the next dot,
propose `clock(cmd) + 1` and send `MCollect` to the fast quorum. -/
def Newt.handleSubmit (p : Newt) (cmd : Command) : Newt × ToSend NewtMessage :=
  let pending := p.pending.start cmd
  let (dot, bp) := p.bp.nextDot
  let clock := p.keysClocks.clock cmd + 1
  let fastQuorum := bp.fastQuorum
  ({ p with pending := pending, bp := bp },
   .toProcesses bp.processId fastQuorum (.mcollect dot cmd fastQuorum clock))

/-- `Newt::handle_mcollect`: discard unless still `START`; compute the command
clock as `max(clock, local + 1)`, consume one vote per key
(`assert_eq!(process_votes.len(), cmd.key_count())`), move to `COLLECT`
saving command, quorum and clock, and reply `MCollectAck` to the sender. -/
def Newt.handleMCollect (p : Newt) (sender : ProcessId) (dot : Dot) (cmd : Command)
    (quorum : List ProcessId) (clock : Nat) :
    Except RustPanic (Newt × ToSend NewtMessage) :=
  let info := p.cmdsInfo.get dot
  if info.status ≠ .START then
    .ok (p, .nothing)
  else
    let cmdClock := max clock (p.keysClocks.clock cmd + 1)
    let processVotes := (p.keysClocks.processVotes cmd cmdClock).1
    let keysClocks := (p.keysClocks.processVotes cmd cmdClock).2
    if processVotes.length ≠ cmd.keyCount then
      .error (.assertFailed "one vote per key")
    else
      let info := { info with status := .COLLECT, cmd := some cmd,
                              quorum := quorum, clock := cmdClock }
      let p := { p with keysClocks := keysClocks, cmdsInfo := p.cmdsInfo.set dot info }
      .ok (p, .toProcesses p.bp.processId [sender] (.mcollectack dot info.clock processVotes))

/-- `Newt::handle_mcollectack`: ignore when no longer `COLLECT` or when the
sender already contributed; add the remote votes, record the clock in
`QuorumClocks`; once all fast-quorum replies arrived, take the fast path
(broadcast `MCommit` with the maximum clock and the aggregated votes, which
are handed over by swapping with fresh `Votes`) when the maximum clock was
reported by at least `f` contributors, and otherwise hit the unimplemented
slow path (`unimplemented!`). -/
def Newt.handleMCollectAck (p : Newt) (sender : ProcessId) (dot : Dot) (clock : Nat)
    (remoteProcessVotes : ProcessVotes) :
    Except RustPanic (Newt × ToSend NewtMessage) :=
  let info := p.cmdsInfo.get dot
  if info.status ≠ .COLLECT ∨ info.quorumClocks.contains sender then
    .ok (p, .nothing)
  else
    let votes := info.votes.add remoteProcessVotes
    let maxClock := (info.quorumClocks.add sender clock).1.1
    let maxCount := (info.quorumClocks.add sender clock).1.2
    let quorumClocks := (info.quorumClocks.add sender clock).2
    if quorumClocks.all then
      if p.bp.f ≤ maxCount then
        let info' := { info with votes := Votes.new, quorumClocks := quorumClocks }
        let p' := { p with cmdsInfo := p.cmdsInfo.set dot info' }
        .ok (p', .toProcesses p.bp.processId p.bp.all (.mcommit dot info.cmd maxClock votes))
      else
        .error .slowPathUnimplemented
    else
      let info' := { info with votes := votes, quorumClocks := quorumClocks }
      .ok ({ p with cmdsInfo := p.cmdsInfo.set dot info' }, .nothing)

/-- `Newt::handle_mcommit`: do nothing when the dot is already `COMMIT`;
otherwise move to `COMMIT` with the received command and clock, merge the
received votes with the local ones (swapped out), possibly broadcast
`MPhantom` votes, add the command to the votes table and execute whatever it
releases. -/
def Newt.handleMCommit (p : Newt) (dot : Dot) (cmd : Option Command) (clock : Nat)
    (votes : Votes) : Newt × ToSend NewtMessage :=
  let info := p.cmdsInfo.get dot
  if info.status = .COMMIT then
    (p, .nothing)
  else
    let info := { info with status := .COMMIT, cmd := cmd, clock := clock }
    let localVotes := info.votes
    let info := { info with votes := Votes.new }
    let votes := votes.merge localVotes
    let (toSendAction, keysClocks) :=
      match info.cmd with
      | some c =>
        let (processVotes, keysClocks) := p.keysClocks.processVotes c info.clock
        if processVotes.isEmpty then (ToSend.nothing, keysClocks)
        else (ToSend.toProcesses p.bp.processId p.bp.all (.mphantom dot processVotes),
              keysClocks)
      | none => (ToSend.nothing, p.keysClocks)
    let (toExecute, table) := p.table.add dot info.cmd info.clock votes
    let p := { p with keysClocks := keysClocks, table := table,
                      cmdsInfo := p.cmdsInfo.set dot info }
    (p.execute toExecute, toSendAction)

/-- `Newt::handle_mphantom`: incorporate the votes in the table when already
committed, otherwise buffer them in the command's votes. -/
def Newt.handleMPhantom (p : Newt) (dot : Dot) (processVotes : ProcessVotes) :
    Newt × ToSend NewtMessage :=
  let info := p.cmdsInfo.get dot
  if info.status = .COMMIT then
    let (toExecute, table) := p.table.addProcessVotes processVotes
    let p := { p with table := table }
    (p.execute toExecute, .nothing)
  else
    let info := { info with votes := info.votes.add processVotes }
    ({ p with cmdsInfo := p.cmdsInfo.set dot info }, .nothing)

/-! ## The Tarjan SCC finder (`src/fantoch_ps/src/executor/graph/tarjan.rs`) -/

/-- Result of a traversal (`FinderResult` in `tarjan.rs`). -/
inductive FinderResult where
  | found
  | missingDependency (dot : Dot)
  | notPending
  | notFound
deriving DecidableEq

/-- A vertex of the dependency graph (`Vertex` in `tarjan.rs`): the command,
its dependency clock (a `threshold::VClock<ProcessId>`, embedded as the
association list of per-process frontiers in iteration order) and Tarjan's
bookkeeping; `id` (here `vid`) `= 0` means never visited in the current
traversal. -/
structure Vertex where
  dot : Dot
  cmd : Command
  clock : List (ProcessId × Nat)
  vid : Nat
  low : Nat
  onStack : Bool
deriving DecidableEq

/-- `Vertex::new`. -/
def Vertex.new (dot : Dot) (cmd : Command) (clock : List (ProcessId × Nat)) : Vertex :=
  { dot := dot, cmd := cmd, clock := clock, vid := 0, low := 0, onStack := false }

/-- `Vertex::conflicts`. -/
def Vertex.conflicts (v other : Vertex) : Bool :=
  v.cmd.conflicts other.cmd

/-- Highest contiguous executed sequence: largest `c` with `1..c` all present
(fuelled climb; a contiguous run cannot be longer than the list). -/
def frontierFrom (s : List Nat) : Nat → Nat → Nat
  | n, 0 => n
  | n, fuel + 1 => if s.contains (n + 1) then frontierFrom s (n + 1) fuel else n

/-- `EventSet::frontier` of one process's executed sequences. -/
def frontier (s : List Nat) : Nat :=
  frontierFrom s 0 s.length

/-- The executed clock (`threshold::AEClock<ProcessId>`, external library;
spec 3 `ExecutedClock`): per process, the set of executed sequences, embedded
as a partial map to the list of sequences in insertion order. -/
structure AEClock where
  procs : ProcessId → Option (List Nat)

/-- `AEClock::contains(process, seq)`: false for an unknown process. -/
def AEClock.contains (e : AEClock) (p : ProcessId) (n : Nat) : Bool :=
  ((e.procs p).getD []).contains n

/-- `AEClock::add(process, seq)`: records the sequence, reporting whether it
was previously missing. -/
def AEClock.add (e : AEClock) (p : ProcessId) (n : Nat) : Bool × AEClock :=
  let cur := (e.procs p).getD []
  if cur.contains n then (false, e)
  else (true, ⟨Function.update e.procs p (some (cur ++ [n]))⟩)

/-- The finder's reusable traversal state (`TarjanSCCFinder` in `tarjan.rs`);
the stack's head is the top of the source's `Vec`. An SCC (`pub type SCC =
BTreeSet<Dot>`) is embedded as the sorted list of its members, so iterating it
yields the members in increasing `Dot` order exactly when the list is sorted. -/
structure TarjanSCCFinder where
  processId : ProcessId
  shardId : Nat
  transitiveConflicts : Bool
  id : Nat
  stack : List Dot
  sccs : List (List Dot)

/-- `TarjanSCCFinder::new`. -/
def TarjanSCCFinder.new (processId : ProcessId) (shardId : Nat)
    (transitiveConflicts : Bool) : TarjanSCCFinder :=
  { processId := processId, shardId := shardId,
    transitiveConflicts := transitiveConflicts,
    id := 0, stack := [], sccs := [] }

/-- `BTreeSet::insert` on the sorted-list embedding of an SCC; only called on
dots that are not yet members (the source asserts freshness first). -/
def insertDot (d : Dot) : List Dot → List Dot
  | [] => [d]
  | e :: rest => if dotLt d e then d :: e :: rest else e :: insertDot d rest

/-- The mutable state `strong_connect` runs over: the finder, the
`VertexIndex` (graph `index.rs`, not under `src/`; spec 3: a map from `Dot` to
a shared mutable `Vertex`, embedded as a partial map), the executed clock and
the `found` counter out-parameter. -/
structure GraphState where
  finder : TarjanSCCFinder
  index : Dot → Option Vertex
  executed : AEClock
  found : Nat

/-- The control points of `TarjanSCCFinder::strong_connect`, used to embed its
recursion and its two nested loops as a fuelled interpreter: `sc` is the entry
of `strong_connect(dot)`, `procLoop` iterates the per-process entries of the
vertex's dependency clock, `depLoop` iterates one process's dependency
sequences from high to low, `finishConnect` is the `vertex.id == vertex.low`
check after the loops, and `popLoop` pops the discovered SCC off the stack. -/
inductive TCall where
  | sc (dot : Dot) (s : GraphState)
  | procLoop (dot : Dot) (items : List (ProcessId × Nat)) (s : GraphState)
  | depLoop (dot : Dot) (procId : ProcessId) (deps : List Nat)
      (items : List (ProcessId × Nat)) (s : GraphState)
  | finishConnect (dot : Dot) (s : GraphState)
  | popLoop (dot : Dot) (scc : List Dot) (s : GraphState)

/-- The state a control point runs over. -/
def TCall.state : TCall → GraphState
  | .sc _ s => s
  | .procLoop _ _ s => s
  | .depLoop _ _ _ _ s => s
  | .finishConnect _ s => s
  | .popLoop _ _ s => s

/-- Outcome of running the finder: `none` when the fuel ran out, otherwise
the source's return value or the panic it raised. -/
abbrev TRes := Option (Except RustPanic (FinderResult × GraphState))

/-- `TarjanSCCFinder::strong_connect`, embedded as a fuelled interpreter over
`TCall` (each step consumes one unit of fuel; every theorem below supplies
enough fuel). The body of each control point is a direct transcription of the
corresponding source region; the vertex locks reduce to re-reading the vertex
from the index where the source re-acquires a guard. -/
def tarjanRun : Nat → TCall → TRes
  | 0, _ => none
  | fuel + 1, call =>
    match call with
    | .sc dot s =>
      -- entry: bump the id, set `id`/`low`, push on the stack, mark on-stack
      match s.index dot with
      | none => some (.error (.expectFailed "vertex should exist"))
      | some vertex =>
        let fid := s.finder.id + 1
        let vertex := { vertex with vid := fid, low := fid, onStack := true }
        let s := { s with
          finder := { s.finder with id := fid, stack := dot :: s.finder.stack },
          index := Function.update s.index dot (some vertex) }
        tarjanRun fuel (.procLoop dot vertex.clock s)
    | .procLoop dot [] s => tarjanRun fuel (.finishConnect dot s)
    | .procLoop dot ((procId, toSeq) :: items) s =>
      -- `to := frontier`; `from := to` under transitive conflicts, otherwise
      -- the executed frontier + 1 (the process must exist in the clock)
      let fromRes : Except RustPanic Nat :=
        if s.finder.transitiveConflicts then .ok toSeq
        else
          match s.executed.procs procId with
          | none => .error (.expectFailed "process should exist in the executed clock")
          | some l => .ok (frontier l + 1)
      match fromRes with
      | .error e => some (.error e)
      | .ok fromSeq =>
        -- `for dep in (from..=to).rev()`
        tarjanRun fuel
          (.depLoop dot procId ((List.range' fromSeq (toSeq + 1 - fromSeq)).reverse) items s)
    | .depLoop dot _procId [] items s => tarjanRun fuel (.procLoop dot items s)
    | .depLoop dot procId (dep :: deps) items s =>
      -- skip executed dependencies
      if s.executed.contains procId dep then
        tarjanRun fuel (.depLoop dot procId deps items s)
      else
        let depDot : Dot := ⟨procId, dep⟩
        -- skip self-dependencies
        if depDot = dot then
          tarjanRun fuel (.depLoop dot procId deps items s)
        else
          match s.index depDot with
          | none => some (.ok (.missingDependency depDot, s))
          | some depVertex =>
            match s.index dot with
            | none => some (.error (.expectFailed "vertex should exist"))
            | some vertex =>
              -- skip non-conflicting commands unless conflicts are transitive
              if !s.finder.transitiveConflicts && !(vertex.conflicts depVertex) then
                tarjanRun fuel (.depLoop dot procId deps items s)
              else
                if depVertex.vid = 0 then
                  -- not yet visited: recurse, give up on a missing dependency,
                  -- then `vertex.low := min(vertex.low, dep_vertex.low)`
                  match tarjanRun fuel (.sc depDot s) with
                  | none => none
                  | some (.error e) => some (.error e)
                  | some (.ok (.missingDependency d, s')) =>
                    some (.ok (.missingDependency d, s'))
                  | some (.ok (_, s')) =>
                    match s'.index dot, s'.index depDot with
                    | some vertex', some depVertex' =>
                      let vertex' := { vertex' with low := min vertex'.low depVertex'.low }
                      let s' := { s' with index := Function.update s'.index dot (some vertex') }
                      tarjanRun fuel (.depLoop dot procId deps items s')
                    | _, _ => some (.error (.expectFailed "vertex should exist"))
                else
                  -- visited: if still on the stack,
                  -- `vertex.low := min(vertex.low, dep_vertex.id)`
                  if depVertex.onStack then
                    let vertex := { vertex with low := min vertex.low depVertex.vid }
                    let s := { s with index := Function.update s.index dot (some vertex) }
                    tarjanRun fuel (.depLoop dot procId deps items s)
                  else
                    tarjanRun fuel (.depLoop dot procId deps items s)
    | .finishConnect dot s =>
      match s.index dot with
      | none => some (.error (.expectFailed "vertex should exist"))
      | some vertex =>
        if vertex.vid = vertex.low then
          tarjanRun fuel (.popLoop dot [] s)
        else
          some (.ok (.notFound, s))
    | .popLoop dot scc s =>
      match s.finder.stack with
      | [] => some (.error (.expectFailed "there should be an SCC member on the stack"))
      | memberDot :: stack =>
        match s.index memberDot with
        | none => some (.error (.expectFailed "stack member should exist"))
        | some memberVertex =>
          let found := s.found + 1
          let memberVertex := { memberVertex with onStack := false }
          -- `assert!(scc.insert(member_dot))`
          if scc.contains memberDot then
            some (.error (.assertFailed "SCC member inserted twice"))
          else
            let scc := insertDot memberDot scc
            -- `executed_clock.add` must go from missing to present
            let (isNew, executed) := s.executed.add memberDot.source memberDot.sequence
            if !isNew then
              some (.error (.assertFailed "dot already executed"))
            else
              let s := { s with
                finder := { s.finder with stack := stack },
                index := Function.update s.index memberDot (some memberVertex),
                executed := executed, found := found }
              if memberDot = dot then
                some (.ok (.found,
                  { s with finder := { s.finder with sccs := s.finder.sccs ++ [scc] } }))
              else
                tarjanRun fuel (.popLoop dot scc s)

/-- The stack walk of `TarjanSCCFinder::finalize`: pop every dot, look its
vertex up (`panic!` when absent) and reset only that vertex's `id`, collecting
the visited dots. -/
def finalizeVisit : List Dot → (Dot → Option Vertex) → List Dot →
    Except RustPanic ((Dot → Option Vertex) × List Dot)
  | [], index, visited => .ok (index, visited)
  | dot :: stack, index, visited =>
    match index dot with
    | none => .error (.expectFailed "stack member should exist")
    | some vertex =>
      finalizeVisit stack (Function.update index dot (some { vertex with vid := 0 }))
        (visited ++ [dot])

/-- `TarjanSCCFinder::finalize`: reset the finder's id counter and the `id` of
every vertex still on the stack (the source leaves `low` and `on_stack`
untouched and keeps the vertices in the index), returning the visited dots. -/
def TarjanSCCFinder.finalize (s : GraphState) :
    Except RustPanic (GraphState × List Dot) :=
  match finalizeVisit s.finder.stack s.index [] with
  | .error e => .error e
  | .ok (index, visited) =>
    .ok ({ s with finder := { s.finder with id := 0, stack := [] }, index := index },
         visited)

/-! ## Concrete scenarios used by counterexamples and witnesses -/

/-- A single-key write command with rifl `(1, 1)` (scenario S1 of the spec). -/
def cmdW : Command := ⟨⟨1, 1⟩, [("a", KVOp.put "x")]⟩

/-- A Basic coordinator for `n = 3`, `f = 1` that proposed `cmdW` under dot
`(1, 1)` and stored it locally (both fast-quorum acks still missing). -/
def basicW : Basic :=
  { bp := { processId := 1, n := 3, f := 1, all := [1, 2, 3],
            fastQuorum := [1, 2], dotCounter := 1 },
    cmds := { processId := 1, n := 3, f := 1, fastQuorumSize := 2,
              dotToInfo := fun d =>
                if d = ⟨1, 1⟩ then { cmd := some cmdW, missingAcks := 2 }
                else BasicInfo.new 1 3 1 2 },
    toExecutor := [] }

/-- `basicW` after handling one `MCommit{(1,1), cmdW}`: the dot is committed
and one execution entry was handed off. -/
def basicCommitted : Basic := (basicW.handleMCommit 1 ⟨1, 1⟩ cmdW).1

/-- Delivers a sequence of `(sender, clock, votes)` `MCollectAck` messages for
one dot, collecting each handler reply in order (first panic aborts). -/
def Newt.ackRun (p : Newt) (dot : Dot) (acks : List (ProcessId × Nat × ProcessVotes)) :
    Except RustPanic (Newt × List (ToSend NewtMessage)) :=
  match acks with
  | [] => .ok (p, [])
  | a :: rest =>
    match p.handleMCollectAck a.1 dot a.2.1 a.2.2 with
    | .error e => .error e
    | .ok (p', ts) =>
      match p'.ackRun dot rest with
      | .error e => .error e
      | .ok (p'', rest') => .ok (p'', ts :: rest')

/-- A fresh Newt coordinator (process 1) for `n = 7`, `f = 2`: the fast quorum
has `2f = 4` members and the fast-path condition needs the maximal clock
reported at least twice. -/
def newt7 : Newt :=
  { bp := { processId := 1, n := 7, f := 2, all := [1, 2, 3, 4, 5, 6, 7],
            fastQuorum := [1, 2, 3, 4], dotCounter := 0 },
    keysClocks := ⟨1, fun _ => 0⟩,
    cmdsInfo := ⟨4, fun _ => CommandInfo.new 4⟩,
    table := ⟨[]⟩,
    store := ⟨fun _ => none⟩,
    pending := ⟨fun _ => none⟩,
    commandsReady := [] }

/-- From `newt7`: submit `cmdW` (dot `(1, 1)`, proposed clock 1), handle the
coordinator's own `MCollect`, then deliver the four fast-quorum
`MCollectAck`s with pairwise distinct clocks `1, 2, 3, 4` — every reply
arrives but the maximal clock is reported only once, fewer than `f = 2`
times. -/
def newtSlowPathTrace : Except RustPanic (Newt × List (ToSend NewtMessage)) :=
  let p := (newt7.handleSubmit cmdW).1
  match p.handleMCollect 1 ⟨1, 1⟩ cmdW [1, 2, 3, 4] 1 with
  | .error e => .error e
  | .ok (p, _) =>
    p.ackRun ⟨1, 1⟩
      [(1, 1, [("a", ⟨1, 1, 1⟩)]), (2, 2, [("a", ⟨2, 1, 2⟩)]),
       (3, 3, [("a", ⟨3, 1, 3⟩)]), (4, 4, [("a", ⟨4, 1, 4⟩)])]

/-- A Newt replica (`n = 3`, `f = 1`, fast quorum `{1, 2}`) whose dot `(1, 1)`
is in `COLLECT` with one collected reply (clock 1 from process 1). -/
def newt3 : Newt :=
  { bp := { processId := 1, n := 3, f := 1, all := [1, 2, 3],
            fastQuorum := [1, 2], dotCounter := 1 },
    keysClocks := ⟨1, fun _ => 1⟩,
    cmdsInfo := ⟨2, fun d =>
      if d = ⟨1, 1⟩ then
        { status := .COLLECT, quorum := [1, 2], cmd := some cmdW, clock := 1,
          votes := Votes.new, quorumClocks := ⟨2, [1], 1, 1⟩ }
      else CommandInfo.new 2⟩,
    table := ⟨[]⟩,
    store := ⟨fun _ => none⟩,
    pending := ⟨fun _ => none⟩,
    commandsReady := [] }

/-- Like `newt3` but with no reply collected yet for dot `(1, 1)`. -/
def newt3none : Newt :=
  { newt3 with
    cmdsInfo := ⟨2, fun d =>
      if d = ⟨1, 1⟩ then
        { status := .COLLECT, quorum := [1, 2], cmd := some cmdW, clock := 1,
          votes := Votes.new, quorumClocks := ⟨2, [], 0, 0⟩ }
      else CommandInfo.new 2⟩ }

/-- Like `newt3` but with dot `(1, 1)` already committed. -/
def newt3committed : Newt :=
  { newt3 with
    cmdsInfo := ⟨2, fun d =>
      if d = ⟨1, 1⟩ then
        { status := .COMMIT, quorum := [1, 2], cmd := some cmdW, clock := 1,
          votes := Votes.new, quorumClocks := ⟨2, [1, 2], 1, 2⟩ }
      else CommandInfo.new 2⟩ }

/-- A named channel of capacity 1 that is currently full. -/
def chanFullSender : ChannelSender Nat := ⟨some "executor", ⟨1, [0], false⟩⟩

/-- First send on the full channel: warns and awaits. -/
def chanSendFirst : SendResult Nat := chanFullSender.send 42

/-- After the consumer drains one message the queue is full again; the second
send finds it full a second time. -/
def chanSendSecond : SendResult Nat :=
  (ChannelSender.mk chanSendFirst.sender.name chanSendFirst.sender.chan.recvOne).send 43

/-- A single-key read command; all cycle vertices carry it, so any two of them
conflict. -/
def cmdA : Command := ⟨⟨1, 1⟩, [("a", KVOp.get)]⟩

/-- Dependency clock of every vertex of the `k`-cycle: frontier 1 for each of
the processes `1..k`, i.e. every cycle member depends on all the others. -/
def cycleClock (k : Nat) : List (ProcessId × Nat) :=
  (List.range' 1 k).map (fun j => (j, 1))

/-- The clock items `(j, 1)` for `j` in `a..a+n-1`: a segment of a cycle
vertex's dependency clock. -/
def itemSeg (a n : Nat) : List (ProcessId × Nat) :=
  (List.range' a n).map (fun j => (j, 1))

/-- The dots `(j, 1)` for `j` in `a..b`, in increasing `Dot` order. -/
def dotSeg (a b : Nat) : List Dot :=
  (List.range' a (b + 1 - a)).map (fun j => ⟨j, 1⟩)

/-- The dots `(1,1), ..., (k,1)` of the `k`-cycle, in increasing `Dot` order. -/
def cycleDots (k : Nat) : List Dot :=
  (List.range' 1 k).map (fun j => ⟨j, 1⟩)

/-- The finder's stack after pushing `d_1, ..., d_m` in order (head = top). -/
def stackOf (m : Nat) : List Dot :=
  ((List.range' 1 m).map (fun j => (⟨j, 1⟩ : Dot))).reverse

/-- Vertex index holding the `k` mutually dependent committed commands. -/
def cycleIndex (k : Nat) : Dot → Option Vertex := fun d =>
  if 1 ≤ d.source ∧ d.source ≤ k ∧ d.sequence = 1 then
    some { dot := d, cmd := cmdA, clock := cycleClock k,
           vid := 0, low := 0, onStack := false }
  else none

/-- Graph state holding the `k`-cycle with a fresh finder and nothing
executed. -/
def cycleState (k : Nat) : GraphState :=
  { finder := TarjanSCCFinder.new 1 0 false,
    index := cycleIndex k,
    executed := ⟨fun p => if 1 ≤ p ∧ p ≤ k then some [] else none⟩,
    found := 0 }

/-- The cycle traversal's state right after `strong_connect` pushed the root
`(i, 1)`: id bumped to `i`, the root on the stack with `id = low = i`. -/
def pushState (k i : Nat) (s : GraphState) : GraphState :=
  { s with
    finder := { s.finder with id := i, stack := stackOf i },
    index := Function.update s.index ⟨i, 1⟩
      (some ⟨⟨i, 1⟩, cmdA, cycleClock k, i, i, true⟩) }

/-- The cycle traversal's state once the root `(i, 1)`'s low-link has been
min-ed down to 1 by its first dependency-clock item. -/
def lowState (k i : Nat) (s : GraphState) : GraphState :=
  { s with
    finder := { s.finder with id := i, stack := stackOf i },
    index := Function.update s.index ⟨i, 1⟩
      (some ⟨⟨i, 1⟩, cmdA, cycleClock k, i, 1, true⟩) }

/-- A vertex index with a single pending vertex `(1, 1)` whose only dependency
`(2, 1)` has not been committed yet. -/
def missIndex : Dot → Option Vertex := fun d =>
  if d = ⟨1, 1⟩ then
    some { dot := ⟨1, 1⟩, cmd := cmdA, clock := [(2, 1)],
           vid := 0, low := 0, onStack := false }
  else none

/-- Graph state for the missing-dependency scenario (S4 of the spec). -/
def missState : GraphState :=
  { finder := TarjanSCCFinder.new 1 0 false,
    index := missIndex,
    executed := ⟨fun p => if 1 ≤ p ∧ p ≤ 2 then some [] else none⟩,
    found := 0 }

/-- Outcome of the aborted root traversal from `missState`: the missing dot,
when the traversal did abort. -/
def missRunAborted : Option Dot :=
  match tarjanRun 100 (.sc ⟨1, 1⟩ missState) with
  | some (.ok (.missingDependency d, _)) => some d
  | _ => none

/-- State after the aborted traversal from `missState` is finalized. -/
def missFinalized : Except RustPanic (GraphState × List Dot) :=
  match tarjanRun 100 (.sc ⟨1, 1⟩ missState) with
  | some (.ok (.missingDependency _, s)) => TarjanSCCFinder.finalize s
  | _ => .error (.assertFailed "traversal did not abort")

/-- Tarjan bookkeeping `(id, low, on_stack)` of the vertex `(1, 1)` after the
aborted traversal was finalized. -/
def missFinalVertex : Option (Nat × Nat × Bool) :=
  match missFinalized with
  | .ok (s, _) => (s.index ⟨1, 1⟩).map (fun v => (v.vid, v.low, v.onStack))
  | .error _ => none

/-- A one-entry graph state used to instantiate the finalize theorem: the
vertex `(1, 1)` was pushed by an aborted traversal (id 1, low 1, on stack). -/
def c4State : GraphState :=
  { finder := { processId := 1, shardId := 0, transitiveConflicts := false,
                id := 1, stack := [⟨1, 1⟩], sccs := [] },
    index := fun d =>
      if d = ⟨1, 1⟩ then
        some { dot := ⟨1, 1⟩, cmd := cmdA, clock := [(2, 1)],
               vid := 1, low := 1, onStack := true }
      else none,
    executed := ⟨fun p => if 1 ≤ p ∧ p ≤ 2 then some [] else none⟩,
    found := 0 }

/-- `tarjanRun` reaches the outcome `r` from the control point `c` given
enough fuel; every property below is stated through this predicate, so the
fuel is existential and only the source's own recursion depth matters. -/
def Exec (c : TCall) (r : Except RustPanic (FinderResult × GraphState)) : Prop :=
  ∃ fuel, tarjanRun fuel c = some r

/-- The SCCs a (sufficiently fuelled) run emits: the `sccs` of the final state
of a successful run, and nothing otherwise. -/
def runSccs (fuel : Nat) (c : TCall) : List (List Dot) :=
  match tarjanRun fuel c with
  | some (.ok (_, s')) => s'.finder.sccs
  | _ => []

/-- Sortedness hypothesis on a control point: every SCC already emitted is
sorted, and for a pop in progress also the partially assembled SCC. -/
def sccSortedInv : TCall → Prop
  | .popLoop _ scc s =>
    List.Chain' dotLt scc ∧ ∀ x ∈ s.finder.sccs, List.Chain' dotLt x
  | c => ∀ x ∈ (TCall.state c).finder.sccs, List.Chain' dotLt x

/-- The invariant of the cycle traversal at the entry of `strong_connect` on
`(i, 1)`: the previous roots `d_1 .. d_{i-1}` are on the stack, visited with
`id = j` and `low = 1`, the rest of the cycle is unvisited, nothing was
emitted or executed yet. -/
def CycleEntry (k i : Nat) (s : GraphState) : Prop :=
  s.finder.transitiveConflicts = false ∧
  s.finder.id = i - 1 ∧
  s.finder.stack = stackOf (i - 1) ∧
  s.finder.sccs = [] ∧
  (∀ j, 1 ≤ j → j < i →
    s.index ⟨j, 1⟩ = some ⟨⟨j, 1⟩, cmdA, cycleClock k, j, 1, true⟩) ∧
  (∀ j, i ≤ j → j ≤ k →
    s.index ⟨j, 1⟩ = some ⟨⟨j, 1⟩, cmdA, cycleClock k, 0, 0, false⟩) ∧
  (∀ p, 1 ≤ p → p ≤ k → s.executed.procs p = some []) ∧
  s.found = 0

/-- The invariant after the whole cycle has been visited (but not yet popped):
all of `d_1 .. d_k` are on the stack with `id = j` and `low = 1`. -/
def CycleDone (k : Nat) (s : GraphState) : Prop :=
  s.finder.transitiveConflicts = false ∧
  s.finder.id = k ∧
  s.finder.stack = stackOf k ∧
  s.finder.sccs = [] ∧
  (∀ j, 1 ≤ j → j ≤ k →
    s.index ⟨j, 1⟩ = some ⟨⟨j, 1⟩, cmdA, cycleClock k, j, 1, true⟩) ∧
  (∀ p, 1 ≤ p → p ≤ k → s.executed.procs p = some []) ∧
  s.found = 0

/-- A parallel-mode pending tracker that already registered `cmdW`. -/
def pendPar : Pending := ((Pending.new true).register cmdW).2

/-- An aggregated-mode pending tracker that already registered `cmdW`. -/
def pendAgg : Pending := ((Pending.new false).register cmdW).2

/-! ## Theorems -/

lemma setInfo_self (p : Basic) (dot : Dot) (info : BasicInfo) :
    (p.setInfo dot info).cmds.dotToInfo dot = info := by
  simp [Basic.setInfo]

lemma setInfo_bp (p : Basic) (dot : Dot) (info : BasicInfo) :
    (p.setInfo dot info).bp = p.bp := rfl

/-- One `MStoreAck` step at a coordinator whose counter is still positive:
the counter is decremented, and the commit is broadcast exactly when it
reaches zero. -/
lemma handleMStoreAck_step (p : Basic) (s : ProcessId) (dot : Dot) (m : Nat)
    (c : Command)
    (hm : (p.cmds.dotToInfo dot).missingAcks = m + 1)
    (hc : (p.cmds.dotToInfo dot).cmd = some c) :
    p.handleMStoreAck s dot =
      .ok (p.setInfo dot { p.cmds.dotToInfo dot with missingAcks := m },
           if m = 0 then .toSend p.bp.all (.mcommit dot c) else .nothing) := by
  unfold Basic.handleMStoreAck
  simp only [hm, Nat.succ_ne_zero, if_false, Nat.add_sub_cancel]
  by_cases hm0 : m = 0
  · simp [hm0, hc, setInfo_bp]
  · simp [hm0, hc]

lemma ackRun_nil (p : Basic) (dot : Dot) : p.ackRun dot [] = .ok (p, []) := rfl

lemma ackRun_cons (p : Basic) (dot : Dot) (s : ProcessId) (rest : List ProcessId) :
    p.ackRun dot (s :: rest) =
      match p.handleMStoreAck s dot with
      | .error e => .error e
      | .ok (p', a) =>
        match p'.ackRun dot rest with
        | .error e => .error e
        | .ok (p'', acts) => .ok (p'', a :: acts) := rfl

/-- Delivering exactly `missing_acks` many acks: every ack but the last
produces `Nothing`, the last broadcasts the commit to `all`; afterwards the
counter is zero and the stored command unchanged. -/
lemma ackRun_exact (dot : Dot) (c : Command) :
    ∀ (senders : List ProcessId) (p : Basic),
      (p.cmds.dotToInfo dot).missingAcks = senders.length →
      (p.cmds.dotToInfo dot).cmd = some c →
      senders ≠ [] →
      ∃ p', p.ackRun dot senders =
          .ok (p', List.replicate (senders.length - 1) Action.nothing ++
            [Action.toSend p.bp.all (BasicMessage.mcommit dot c)]) ∧
        p'.bp = p.bp ∧
        (p'.cmds.dotToInfo dot).missingAcks = 0 ∧
        (p'.cmds.dotToInfo dot).cmd = some c := by
  intro senders
  induction senders with
  | nil => intro p _ _ h3; exact absurd rfl h3
  | cons s rest ih =>
    intro p h1 h2 _
    cases rest with
    | nil =>
      have hstep := handleMStoreAck_step p s dot 0 c (by simpa using h1) h2
      refine ⟨p.setInfo dot { p.cmds.dotToInfo dot with missingAcks := 0 },
        ?_, rfl, ?_, ?_⟩
      · rw [ackRun_cons, hstep]
        simp [ackRun_nil]
      · simp [setInfo_self]
      · simp [setInfo_self, h2]
    | cons r rs =>
      have hstep := handleMStoreAck_step p s dot (r :: rs).length c
        (by simpa using h1) h2
      set p1 := p.setInfo dot
        { p.cmds.dotToInfo dot with missingAcks := (r :: rs).length } with hp1
      have h1' : (p1.cmds.dotToInfo dot).missingAcks = (r :: rs).length := by
        simp [hp1, setInfo_self]
      have h2' : (p1.cmds.dotToInfo dot).cmd = some c := by
        simp [hp1, setInfo_self, h2]
      obtain ⟨p', hrun, hbp, hz, hcm⟩ := ih p1 h1' h2' (by simp)
      refine ⟨p', ?_, ?_, hz, hcm⟩
      · have hbpall : p1.bp.all = p.bp.all := rfl
        rw [ackRun_cons, hstep]
        simp only [List.length_cons, Nat.succ_ne_zero, if_false]
        rw [hrun]
        simp [hbpall, List.replicate_succ]
      · rw [hbp]; rfl

/-- C1: in the Basic variant, for every dot whose coordinator starts with
`missing_acks` equal to the fast-quorum size and a stored command, delivering
exactly `|fast_quorum|` `MStoreAck` messages produces exactly one
`MCommit{dot, cmd}` addressed to all processes — on the last ack — and no
`MCommit` (indeed no action at all) on any earlier ack. -/
theorem c1_fast_quorum_acks_commit (p : Basic) (dot : Dot) (c : Command)
    (senders : List ProcessId)
    (hinit : (p.cmds.dotToInfo dot).missingAcks = p.bp.fastQuorum.length)
    (hlen : senders.length = p.bp.fastQuorum.length)
    (hcmd : (p.cmds.dotToInfo dot).cmd = some c)
    (hpos : 0 < p.bp.fastQuorum.length) :
    ∃ p', p.ackRun dot senders =
      .ok (p', List.replicate (p.bp.fastQuorum.length - 1) Action.nothing ++
        [Action.toSend p.bp.all (BasicMessage.mcommit dot c)]) := by
  obtain ⟨p', hrun, -, -, -⟩ :=
    ackRun_exact dot c senders p (by rw [hinit, hlen]) hcmd
      (List.ne_nil_of_length_pos (by rw [hlen]; exact hpos))
  exact ⟨p', by rw [hrun, hlen]⟩

/-- Witness for C1: the coordinator `basicW` (fast quorum `{1, 2}`) turns the
two acks into exactly one commit broadcast to `{1, 2, 3}`. -/
theorem c1_witness :
    0 < basicW.bp.fastQuorum.length ∧
    ∃ p', basicW.ackRun ⟨1, 1⟩ [1, 2] =
      .ok (p', List.replicate (basicW.bp.fastQuorum.length - 1) Action.nothing ++
        [Action.toSend basicW.bp.all (BasicMessage.mcommit ⟨1, 1⟩ cmdW)]) :=
  ⟨by decide,
   c1_fast_quorum_acks_commit basicW ⟨1, 1⟩ cmdW [1, 2] (by decide) rfl
     (by simp [basicW]) (by decide)⟩

lemma ackRun_append_error (dot : Dot) :
    ∀ (l1 : List ProcessId) (p p1 : Basic) (acts : List (Action BasicMessage))
      (l2 : List ProcessId) (e : RustPanic),
      p.ackRun dot l1 = .ok (p1, acts) →
      p1.ackRun dot l2 = .error e →
      p.ackRun dot (l1 ++ l2) = .error e := by
  intro l1
  induction l1 with
  | nil =>
    intro p p1 acts l2 e h1 h2
    rw [ackRun_nil] at h1
    cases h1
    simpa using h2
  | cons s rest ih =>
    intro p p1 acts l2 e h1 h2
    rw [ackRun_cons] at h1
    rw [List.cons_append, ackRun_cons]
    cases hs : p.handleMStoreAck s dot with
    | error e' => rw [hs] at h1; cases h1
    | ok pr =>
      obtain ⟨pmid, act⟩ := pr
      rw [hs] at h1
      dsimp only at h1 ⊢
      cases hrr : pmid.ackRun dot rest with
      | error e' => rw [hrr] at h1; cases h1
      | ok pr2 =>
        obtain ⟨pfin, acts2⟩ := pr2
        rw [hrr] at h1
        dsimp only at h1
        have hp1 : pfin = p1 := by cases h1; rfl
        rw [ih pmid p1 acts2 l2 e (by rw [hrr, hp1]) h2]

/-- C8: a coordinator that starts with `missing_acks` equal to the fast-quorum
size and receives more `MStoreAck` messages than that underflows the `usize`
counter (a panic in debug builds): the decrement is unconditional — the
handler does not even depend on the sender, so duplicates are not detected,
and there is no already-committed check. -/
theorem c8_extra_ack_underflows (p : Basic) (dot : Dot) (c : Command)
    (senders : List ProcessId) (nxt : ProcessId) (extra : List ProcessId)
    (hinit : (p.cmds.dotToInfo dot).missingAcks = p.bp.fastQuorum.length)
    (hlen : senders.length = p.bp.fastQuorum.length)
    (hcmd : (p.cmds.dotToInfo dot).cmd = some c)
    (hpos : 0 < p.bp.fastQuorum.length) :
    p.ackRun dot (senders ++ nxt :: extra) = .error .usizeUnderflow ∧
    ∀ (q : Basic) (d : Dot) (s1 s2 : ProcessId),
      q.handleMStoreAck s1 d = q.handleMStoreAck s2 d := by
  refine ⟨?_, fun _ _ _ _ => rfl⟩
  obtain ⟨p', hrun, -, hz, -⟩ :=
    ackRun_exact dot c senders p (by rw [hinit, hlen]) hcmd
      (List.ne_nil_of_length_pos (by rw [hlen]; exact hpos))
  have hthrow : p'.handleMStoreAck nxt dot = .error .usizeUnderflow := by
    unfold Basic.handleMStoreAck
    simp [hz]
  have htail : p'.ackRun dot (nxt :: extra) = .error .usizeUnderflow := by
    unfold Basic.ackRun
    rw [hthrow]
  exact ackRun_append_error dot senders p p' _ (nxt :: extra) _ hrun htail

/-- Witness for C8: `basicW` handles acks from 1 and 2, then a third ack
underflows the counter. -/
theorem c8_witness :
    basicW.ackRun ⟨1, 1⟩ [1, 2, 1] = .error .usizeUnderflow :=
  (c8_extra_ack_underflows basicW ⟨1, 1⟩ cmdW [1, 2] 1 [] (by decide) rfl
    (by simp [basicW]) (by decide)).1

/-- Counterexample to C5 as stated: in the Basic variant, handling a second
`MCommit` for the already committed dot `(1, 1)` is not a no-op — it appends
the execution entries for the command's keys to the hand-off queue again. -/
theorem c5_counterexample :
    (basicCommitted.handleMCommit 1 ⟨1, 1⟩ cmdW).1.toExecutor ≠
      basicCommitted.toExecutor := by
  decide

/-- C5 (amended): in the dependency-set variant, handling a second `Commit`
for an already committed dot is an idempotent no-op — no send action and the
state returned unchanged; the Basic variant's `handle_mcommit` performs no
duplicate check: every `MCommit`, also a repeated one, appends one execution
entry per key of the command to the hand-off queue and forwards `MCommitDot`
again. -/
theorem c5_duplicate_commit :
    (∀ (p : Newt) (dot : Dot) (cmd : Option Command) (clock : Nat) (votes : Votes),
      (p.cmdsInfo.get dot).status = .COMMIT →
      p.handleMCommit dot cmd clock votes = (p, .nothing)) ∧
    (∀ (p : Basic) (sender : ProcessId) (dot : Dot) (c : Command),
      (p.handleMCommit sender dot c).1.toExecutor =
        p.toExecutor ++ c.ops.map (fun ko => BasicExecutionInfo.mk c.rifl ko.1 ko.2) ∧
      (p.handleMCommit sender dot c).2 = .toForward (.mcommitdot dot)) := by
  refine ⟨?_, fun p sender dot c => ⟨rfl, rfl⟩⟩
  intro p dot cmd clock votes hc
  simp only [Newt.handleMCommit]
  rw [if_pos hc]

/-- Witness for C5: the committed Newt replica drops a duplicate `MCommit`,
while the Basic replica re-emits the `MCommitDot` forward. -/
theorem c5_witness :
    newt3committed.handleMCommit ⟨1, 1⟩ (some cmdW) 1 Votes.new =
      (newt3committed, .nothing) ∧
    (basicW.handleMCommit 1 ⟨1, 1⟩ cmdW).2 = .toForward (.mcommitdot ⟨1, 1⟩) :=
  ⟨c5_duplicate_commit.1 newt3committed ⟨1, 1⟩ (some cmdW) 1 Votes.new rfl,
   (c5_duplicate_commit.2 basicW 1 ⟨1, 1⟩ cmdW).2⟩

/-- C6: in both modes of the pending aggregator, a partial for a rifl that is
not currently registered returns `None` and leaves the aggregator's state
unchanged. -/
theorem c6_addPartial_unregistered (p : Pending) (rifl : Rifl)
    (pr : Key × KVOpResult)
    (hpar : p.parallelExecutor = true → p.parallelPending rifl = none)
    (hagg : p.parallelExecutor = false → p.pending rifl = none) :
    p.addPartial rifl pr = .ok (none, p) := by
  cases hb : p.parallelExecutor
  · simp [Pending.addPartial, hb, hagg hb]
  · simp [Pending.addPartial, hb, hpar hb]

/-- Witness for C6: an unregistered rifl is dropped in the aggregated and in
the parallel mode. -/
theorem c6_witness :
    (Pending.new false).addPartial ⟨1, 1⟩ ("a", none) = .ok (none, Pending.new false) ∧
    (Pending.new true).addPartial ⟨1, 1⟩ ("a", none) = .ok (none, Pending.new true) :=
  ⟨c6_addPartial_unregistered _ _ _ (fun h => nomatch h) (fun _ => rfl),
   c6_addPartial_unregistered _ _ _ (fun _ => rfl) (fun h => nomatch h)⟩

/-- C10: `register` with a rifl that is already present returns `false` but
still overwrites the entry: in parallel mode the outstanding-key counter is
replaced by the new command's key count, and in aggregated mode the stored
(possibly partially filled) `CommandResult` is replaced by a fresh empty one,
discarding any accumulated partials. -/
theorem c10_register_overwrites (p : Pending) (cmd : Command) :
    (p.parallelExecutor = true → ∀ old, p.parallelPending cmd.rifl = some old →
      (p.register cmd).1 = false ∧
      (p.register cmd).2.parallelPending cmd.rifl = some cmd.keyCount) ∧
    (p.parallelExecutor = false → ∀ old, p.pending cmd.rifl = some old →
      (p.register cmd).1 = false ∧
      (p.register cmd).2.pending cmd.rifl =
        some (CommandResult.new cmd.rifl cmd.keyCount)) := by
  constructor
  · intro hb old hsome
    exact ⟨by simp [Pending.register, hb, hsome], by simp [Pending.register, hb]⟩
  · intro hb old hsome
    exact ⟨by simp [Pending.register, hb, hsome], by simp [Pending.register, hb]⟩

/-- Witness for C10: re-registering `cmdW` on trackers that already hold its
rifl returns `false` and overwrites. -/
theorem c10_witness :
    ((pendPar.register cmdW).1 = false ∧
      (pendPar.register cmdW).2.parallelPending cmdW.rifl = some cmdW.keyCount) ∧
    ((pendAgg.register cmdW).1 = false ∧
      (pendAgg.register cmdW).2.pending cmdW.rifl =
        some (CommandResult.new cmdW.rifl cmdW.keyCount)) :=
  ⟨(c10_register_overwrites pendPar cmdW).1 rfl cmdW.keyCount rfl,
   (c10_register_overwrites pendAgg cmdW).2 rfl (CommandResult.new cmdW.rifl cmdW.keyCount) rfl⟩

/-- Counterexample to C9 as stated: a named queue does not warn only on the
first fill — here the queue named "executor" is found full twice and warns
both times (the source keeps no first-fill state). -/
theorem c9_counterexample :
    chanSendFirst.warning = some "named channel executor is full" ∧
    chanSendSecond.warning = some "named channel executor is full" :=
  ⟨rfl, rfl⟩

/-- C9 (amended): `ChannelSender::send` first attempts a non-blocking
`try_send` and falls back to an awaited send exactly when the queue is full;
the "channel is full" warning is emitted every time the queue is found full
(named or not), not only the first time. -/
theorem c9_send_behaviour (M : Type) (s : ChannelSender M) (v : M)
    (hopen : s.chan.closed = false) :
    ((s.send v).usedAwait = true ↔ s.chan.capacity ≤ s.chan.buffer.length) ∧
    ((s.send v).warning.isSome = true ↔ s.chan.capacity ≤ s.chan.buffer.length) ∧
    ((s.send v).usedAwait = false →
      (s.send v).sender.chan.buffer = s.chan.buffer ++ [v]) ∧
    (s.send v).isOk = true := by
  by_cases hc : s.chan.capacity ≤ s.chan.buffer.length
  · simp [ChannelSender.send, BoundedChannel.trySend, hopen, hc]
  · simp [ChannelSender.send, BoundedChannel.trySend, hopen, hc]

/-- Witness for C9: instantiated on the full named channel, where the send
awaits and warns. -/
theorem c9_witness :
    ((chanFullSender.send 42).usedAwait = true ↔
      chanFullSender.chan.capacity ≤ chanFullSender.chan.buffer.length) ∧
    ((chanFullSender.send 42).warning.isSome = true ↔
      chanFullSender.chan.capacity ≤ chanFullSender.chan.buffer.length) ∧
    ((chanFullSender.send 42).usedAwait = false →
      (chanFullSender.send 42).sender.chan.buffer =
        chanFullSender.chan.buffer ++ [42]) ∧
    (chanFullSender.send 42).isOk = true :=
  c9_send_behaviour Nat chanFullSender 42 rfl

/-- C2: at a coordinator in `COLLECT` status receiving a fresh
`MCollectAck`, once the reply completes the fast quorum (`all()`) and the
maximal clock was reported by at least `f` contributors, the handler returns
exactly one `MCommit{dot, cmd, clock = max_clock, votes}` addressed to all
processes; a reply that does not yet complete the quorum returns no send
action. -/
theorem c2_collectack_fast_path (p : Newt) (sender : ProcessId) (dot : Dot)
    (clock : Nat) (rpv : ProcessVotes)
    (hcollect : (p.cmdsInfo.get dot).status = .COLLECT)
    (hfresh : (p.cmdsInfo.get dot).quorumClocks.contains sender = false) :
    (((p.cmdsInfo.get dot).quorumClocks.add sender clock).2.all = true →
      p.bp.f ≤ ((p.cmdsInfo.get dot).quorumClocks.add sender clock).1.2 →
      p.handleMCollectAck sender dot clock rpv =
        .ok ({ p with cmdsInfo := p.cmdsInfo.set dot
                            ({ p.cmdsInfo.get dot with
                               votes := Votes.new,
                               quorumClocks := ((p.cmdsInfo.get dot).quorumClocks.add sender clock).2 }) },
             .toProcesses p.bp.processId p.bp.all
               (.mcommit dot (p.cmdsInfo.get dot).cmd
                 ((p.cmdsInfo.get dot).quorumClocks.add sender clock).1.1
                 ((p.cmdsInfo.get dot).votes.add rpv)))) ∧
    (((p.cmdsInfo.get dot).quorumClocks.add sender clock).2.all = false →
      p.handleMCollectAck sender dot clock rpv =
        .ok ({ p with cmdsInfo := p.cmdsInfo.set dot
                            ({ p.cmdsInfo.get dot with
                               votes := (p.cmdsInfo.get dot).votes.add rpv,
                               quorumClocks := ((p.cmdsInfo.get dot).quorumClocks.add sender clock).2 }) },
             .nothing)) := by
  constructor
  · intro hall hf
    simp [Newt.handleMCollectAck, hcollect, hfresh, hall, hf]
  · intro hall
    simp [Newt.handleMCollectAck, hcollect, hfresh, hall]

/-- Witness for C2: on `newt3` the second fresh reply completes the quorum and
commits; on `newt3none` the first reply does not and nothing is sent. -/
theorem c2_witness :
    newt3.handleMCollectAck 2 ⟨1, 1⟩ 1 [("a", ⟨2, 1, 1⟩)] =
      .ok ({ newt3 with cmdsInfo := newt3.cmdsInfo.set ⟨1, 1⟩
                            ({ newt3.cmdsInfo.get ⟨1, 1⟩ with
                               votes := Votes.new,
                               quorumClocks := ((newt3.cmdsInfo.get ⟨1, 1⟩).quorumClocks.add 2 1).2 }) },
           .toProcesses newt3.bp.processId newt3.bp.all
             (.mcommit ⟨1, 1⟩ (newt3.cmdsInfo.get ⟨1, 1⟩).cmd
               ((newt3.cmdsInfo.get ⟨1, 1⟩).quorumClocks.add 2 1).1.1
               ((newt3.cmdsInfo.get ⟨1, 1⟩).votes.add [("a", ⟨2, 1, 1⟩)]))) ∧
    newt3none.handleMCollectAck 2 ⟨1, 1⟩ 1 [("a", ⟨2, 1, 1⟩)] =
      .ok ({ newt3none with cmdsInfo := newt3none.cmdsInfo.set ⟨1, 1⟩
                                ({ newt3none.cmdsInfo.get ⟨1, 1⟩ with
                                   votes := (newt3none.cmdsInfo.get ⟨1, 1⟩).votes.add [("a", ⟨2, 1, 1⟩)],
                                   quorumClocks := ((newt3none.cmdsInfo.get ⟨1, 1⟩).quorumClocks.add 2 1).2 }) },
           .nothing) :=
  ⟨(c2_collectack_fast_path newt3 2 ⟨1, 1⟩ 1 [("a", ⟨2, 1, 1⟩)] rfl rfl).1 rfl
     (by decide),
   (c2_collectack_fast_path newt3none 2 ⟨1, 1⟩ 1 [("a", ⟨2, 1, 1⟩)] rfl rfl).2 rfl⟩

/-- C7: from a fresh `n = 7, f = 2` coordinator, submitting a command and
delivering the four fast-quorum `CollectAck` replies with pairwise distinct
clocks reaches the state where all replies arrived but the maximal clock was
reported only once (fewer than `f`): `handle_mcollectack` then hits
`unimplemented!` — the slow path — instead of returning an action. -/
theorem c7_slow_path_panics :
    newtSlowPathTrace = .error .slowPathUnimplemented := rfl

/-- Counterexample to C4 as stated: after the root traversal from `missState`
aborts with `MissingDependency (2,1)` and the finder is finalized, the pushed
vertex `(1, 1)` ends with `id = 0` but `low = 1` and `on_stack = true` — the
source's `finalize` resets only `id`. -/
theorem c4_counterexample :
    missRunAborted = some ⟨2, 1⟩ ∧
    missFinalVertex = some (0, 1, true) ∧
    missFinalVertex ≠ some (0, 0, false) := by
  refine ⟨rfl, rfl, ?_⟩
  intro h
  rw [show missFinalVertex = some (0, 1, true) from rfl] at h
  simp at h

/-- The stack walk of `finalize` succeeds when every stack member is indexed;
it resets exactly the `id` of the stack members' vertices and touches no other
entry. -/
lemma finalizeVisit_spec :
    ∀ (stack : List Dot) (index : Dot → Option Vertex) (acc : List Dot),
      (∀ d ∈ stack, (index d).isSome) →
      ∃ index', finalizeVisit stack index acc = .ok (index', acc ++ stack) ∧
        ∀ d, (d ∈ stack → index' d = (index d).map (fun v => { v with vid := 0 })) ∧
             (d ∉ stack → index' d = index d) := by
  intro stack
  induction stack with
  | nil =>
    intro index acc _
    exact ⟨index, by simp [finalizeVisit],
      fun d => ⟨fun h => absurd h (List.not_mem_nil d), fun _ => rfl⟩⟩
  | cons e rest ih =>
    intro index acc hsome
    obtain ⟨v, hv⟩ := Option.isSome_iff_exists.mp (hsome e (by simp))
    set index1 := Function.update index e (some { v with vid := 0 }) with hidx1
    have hsome1 : ∀ d ∈ rest, (index1 d).isSome := by
      intro d hd
      by_cases hde : d = e
      · subst hde; simp [hidx1]
      · rw [hidx1, Function.update_noteq hde]
        exact hsome d (by simp [hd])
    obtain ⟨index', hrun, hspec⟩ := ih index1 (acc ++ [e]) hsome1
    refine ⟨index', ?_, ?_⟩
    · simp only [finalizeVisit, hv]
      rw [← hidx1, hrun]
      simp
    · intro d
      constructor
      · intro hd
        rcases List.mem_cons.mp hd with hde | hdr
        · subst hde
          by_cases hdr2 : d ∈ rest
          · rw [(hspec d).1 hdr2, hidx1]
            simp [hv]
          · rw [(hspec d).2 hdr2, hidx1]
            simp [hv]
        · rw [(hspec d).1 hdr]
          by_cases hde : d = e
          · subst hde
            rw [hidx1]
            simp [hv]
          · rw [hidx1, Function.update_noteq hde]
      · intro hd
        have hde : d ≠ e := fun h => hd (h ▸ List.mem_cons_self e rest)
        have hdr : d ∉ rest := fun h => hd (List.mem_cons_of_mem e h)
        rw [(hspec d).2 hdr, hidx1, Function.update_noteq hde]

/-- C4 (amended): when the finder is finalized after an aborted traversal and
every stack member is indexed, every vertex that is still on the stack ends
with `id = 0` and remains present in the `VertexIndex`, while its `low` and
`on_stack` fields are left exactly as they were (in particular `on_stack`
stays `true` for the pushed vertices); entries off the stack are untouched,
the finder's id counter is reset and its stack emptied, and the visited set is
the stack. -/
theorem c4_finalize_resets_only_id (s : GraphState)
    (hstack : ∀ d ∈ s.finder.stack, (s.index d).isSome) :
    ∃ s' visited, TarjanSCCFinder.finalize s = .ok (s', visited) ∧
      visited = s.finder.stack ∧
      s'.finder.id = 0 ∧ s'.finder.stack = [] ∧
      (∀ d ∈ s.finder.stack,
        s'.index d = (s.index d).map (fun v => { v with vid := 0 }) ∧
        (s'.index d).isSome = true ∧
        (s'.index d).map Vertex.low = (s.index d).map Vertex.low ∧
        (s'.index d).map Vertex.onStack = (s.index d).map Vertex.onStack) ∧
      (∀ d, d ∉ s.finder.stack → s'.index d = s.index d) := by
  obtain ⟨index', hrun, hspec⟩ := finalizeVisit_spec s.finder.stack s.index [] hstack
  refine ⟨{ s with finder := { s.finder with id := 0, stack := [] }, index := index' },
    s.finder.stack, ?_, rfl, rfl, rfl, ?_, fun d hd => (hspec d).2 hd⟩
  · unfold TarjanSCCFinder.finalize
    rw [hrun]
    simp
  · intro d hd
    obtain ⟨v, hv⟩ := Option.isSome_iff_exists.mp (hstack d hd)
    have h1 := (hspec d).1 hd
    refine ⟨h1, ?_, ?_, ?_⟩ <;> simp [h1, hv]

/-- Witness for C4: finalizing the one-entry aborted traversal `c4State`. -/
theorem c4_witness :
    ∃ s' visited, TarjanSCCFinder.finalize c4State = .ok (s', visited) ∧
      visited = c4State.finder.stack ∧
      s'.finder.id = 0 ∧ s'.finder.stack = [] ∧
      (∀ d ∈ c4State.finder.stack,
        s'.index d = (c4State.index d).map (fun v => { v with vid := 0 }) ∧
        (s'.index d).isSome = true ∧
        (s'.index d).map Vertex.low = (c4State.index d).map Vertex.low ∧
        (s'.index d).map Vertex.onStack = (c4State.index d).map Vertex.onStack) ∧
      (∀ d, d ∉ c4State.finder.stack → s'.index d = c4State.index d) :=
  c4_finalize_resets_only_id c4State (by decide)

/-! ### One-step unfolding lemmas for the finder interpreter -/

lemma run_zero (c : TCall) : tarjanRun 0 c = none := rfl

lemma run_sc (fuel : Nat) (dot : Dot) (s : GraphState) :
    tarjanRun (fuel + 1) (.sc dot s) =
      match s.index dot with
      | none => some (.error (.expectFailed "vertex should exist"))
      | some vertex =>
        tarjanRun fuel (.procLoop dot vertex.clock
          { s with
            finder :=
              { s.finder with
                id := s.finder.id + 1,
                stack := dot :: s.finder.stack },
            index :=
              Function.update s.index dot
                (some { vertex with
                        vid := s.finder.id + 1,
                        low := s.finder.id + 1,
                        onStack := true }) }) := rfl

lemma run_procLoop_nil (fuel : Nat) (dot : Dot) (s : GraphState) :
    tarjanRun (fuel + 1) (.procLoop dot [] s) =
      tarjanRun fuel (.finishConnect dot s) := rfl

lemma run_procLoop_cons (fuel : Nat) (dot : Dot) (procId : ProcessId) (toSeq : Nat)
    (items : List (ProcessId × Nat)) (s : GraphState) :
    tarjanRun (fuel + 1) (.procLoop dot ((procId, toSeq) :: items) s) =
      match
        (if s.finder.transitiveConflicts then (.ok toSeq : Except RustPanic Nat)
         else
           match s.executed.procs procId with
           | none => .error (.expectFailed "process should exist in the executed clock")
           | some l => .ok (frontier l + 1)) with
      | .error e => some (.error e)
      | .ok fromSeq =>
        tarjanRun fuel
          (.depLoop dot procId ((List.range' fromSeq (toSeq + 1 - fromSeq)).reverse)
            items s) := rfl

lemma run_depLoop_nil (fuel : Nat) (dot : Dot) (procId : ProcessId)
    (items : List (ProcessId × Nat)) (s : GraphState) :
    tarjanRun (fuel + 1) (.depLoop dot procId [] items s) =
      tarjanRun fuel (.procLoop dot items s) := rfl

lemma run_depLoop_cons (fuel : Nat) (dot : Dot) (procId : ProcessId) (dep : Nat)
    (deps : List Nat) (items : List (ProcessId × Nat)) (s : GraphState) :
    tarjanRun (fuel + 1) (.depLoop dot procId (dep :: deps) items s) =
      if s.executed.contains procId dep then
        tarjanRun fuel (.depLoop dot procId deps items s)
      else if (⟨procId, dep⟩ : Dot) = dot then
        tarjanRun fuel (.depLoop dot procId deps items s)
      else
        match s.index ⟨procId, dep⟩ with
        | none => some (.ok (.missingDependency ⟨procId, dep⟩, s))
        | some depVertex =>
          match s.index dot with
          | none => some (.error (.expectFailed "vertex should exist"))
          | some vertex =>
            if !s.finder.transitiveConflicts && !(vertex.conflicts depVertex) then
              tarjanRun fuel (.depLoop dot procId deps items s)
            else if depVertex.vid = 0 then
              match tarjanRun fuel (.sc ⟨procId, dep⟩ s) with
              | none => none
              | some (.error e) => some (.error e)
              | some (.ok (.missingDependency d, s')) => some (.ok (.missingDependency d, s'))
              | some (.ok (_, s')) =>
                match s'.index dot, s'.index ⟨procId, dep⟩ with
                | some vertex', some depVertex' =>
                  tarjanRun fuel (.depLoop dot procId deps items
                    { s' with index := Function.update s'.index dot (some { vertex' with low := min vertex'.low depVertex'.low }) })
                | _, _ => some (.error (.expectFailed "vertex should exist"))
            else if depVertex.onStack then
              tarjanRun fuel (.depLoop dot procId deps items
                { s with index := Function.update s.index dot (some { vertex with low := min vertex.low depVertex.vid }) })
            else
              tarjanRun fuel (.depLoop dot procId deps items s) := rfl

lemma run_finishConnect (fuel : Nat) (dot : Dot) (s : GraphState) :
    tarjanRun (fuel + 1) (.finishConnect dot s) =
      match s.index dot with
      | none => some (.error (.expectFailed "vertex should exist"))
      | some vertex =>
        if vertex.vid = vertex.low then
          tarjanRun fuel (.popLoop dot [] s)
        else
          some (.ok (.notFound, s)) := rfl

lemma run_popLoop (fuel : Nat) (dot : Dot) (scc : List Dot) (s : GraphState) :
    tarjanRun (fuel + 1) (.popLoop dot scc s) =
      match s.finder.stack with
      | [] => some (.error (.expectFailed "there should be an SCC member on the stack"))
      | memberDot :: stack =>
        match s.index memberDot with
        | none => some (.error (.expectFailed "stack member should exist"))
        | some memberVertex =>
          if scc.contains memberDot then
            some (.error (.assertFailed "SCC member inserted twice"))
          else
            if !(s.executed.add memberDot.source memberDot.sequence).1 then
              some (.error (.assertFailed "dot already executed"))
            else
              let s' : GraphState :=
                { s with
                  finder := { s.finder with stack := stack },
                  index := Function.update s.index memberDot
                    (some { memberVertex with onStack := false }),
                  executed := (s.executed.add memberDot.source memberDot.sequence).2,
                  found := s.found + 1 }
              if memberDot = dot then
                some (.ok (.found,
                  { s' with finder := { s'.finder with
                      sccs := s'.finder.sccs ++ [insertDot memberDot scc] } }))
              else
                tarjanRun fuel (.popLoop dot (insertDot memberDot scc) s') := rfl

/-- Fuel monotonicity: a run that finishes within `f` steps finishes with the
same outcome given more fuel. -/
lemma tarjanRun_mono :
    ∀ (f : Nat), ∀ (g : Nat) (c : TCall) (r : Except RustPanic (FinderResult × GraphState)),
      f ≤ g → tarjanRun f c = some r → tarjanRun g c = some r := by
  intro f
  induction f with
  | zero => intro g c r _ h; rw [run_zero] at h; cases h
  | succ f ih =>
    intro g c r hg h
    obtain ⟨g', rfl⟩ : ∃ g', g = g' + 1 := ⟨g - 1, by omega⟩
    have hg' : f ≤ g' := by omega
    cases c with
    | sc dot s =>
      rw [run_sc] at h ⊢
      cases hv : s.index dot with
      | none => rw [hv] at h; exact h
      | some vertex => rw [hv] at h; exact ih _ _ _ hg' h
    | procLoop dot items s =>
      cases items with
      | nil =>
        rw [run_procLoop_nil] at h ⊢
        exact ih _ _ _ hg' h
      | cons item items =>
        obtain ⟨procId, toSeq⟩ := item
        rw [run_procLoop_cons] at h ⊢
        cases hfr :
            (if s.finder.transitiveConflicts then (.ok toSeq : Except RustPanic Nat)
             else
               match s.executed.procs procId with
               | none => .error (.expectFailed "process should exist in the executed clock")
               | some l => .ok (frontier l + 1)) with
        | error e => rw [hfr] at h; exact h
        | ok fromSeq => rw [hfr] at h; exact ih _ _ _ hg' h
    | depLoop dot procId deps items s =>
      cases deps with
      | nil =>
        rw [run_depLoop_nil] at h ⊢
        exact ih _ _ _ hg' h
      | cons dep deps =>
        rw [run_depLoop_cons] at h ⊢
        by_cases h1 : s.executed.contains procId dep = true
        · rw [if_pos h1] at h ⊢; exact ih _ _ _ hg' h
        · rw [if_neg h1] at h ⊢
          by_cases h2 : (⟨procId, dep⟩ : Dot) = dot
          · rw [if_pos h2] at h ⊢; exact ih _ _ _ hg' h
          · rw [if_neg h2] at h ⊢
            cases hdv : s.index (⟨procId, dep⟩ : Dot) with
            | none => rw [hdv] at h; exact h
            | some depVertex =>
              rw [hdv] at h
              dsimp only at h ⊢
              cases hv : s.index dot with
              | none => rw [hv] at h; exact h
              | some vertex =>
                rw [hv] at h
                dsimp only at h ⊢
                by_cases h3 :
                    (!s.finder.transitiveConflicts && !(vertex.conflicts depVertex)) = true
                · rw [if_pos h3] at h ⊢; exact ih _ _ _ hg' h
                · rw [if_neg h3] at h ⊢
                  by_cases h4 : depVertex.vid = 0
                  · rw [if_pos h4] at h ⊢
                    cases hrec : tarjanRun f (.sc ⟨procId, dep⟩ s) with
                    | none => rw [hrec] at h; simp at h
                    | some x =>
                      rw [hrec] at h
                      rw [ih _ _ _ hg' hrec]
                      cases x with
                      | error e => exact h
                      | ok pr =>
                        obtain ⟨res1, s1⟩ := pr
                        cases res1 with
                        | missingDependency d => exact h
                        | found =>
                          dsimp only at h ⊢
                          cases hv1 : s1.index dot with
                          | none =>
                            rw [hv1] at h
                            cases hv2 : s1.index (⟨procId, dep⟩ : Dot) with
                            | none => rw [hv2] at h; exact h
                            | some y => rw [hv2] at h; exact h
                          | some vertex1 =>
                            rw [hv1] at h
                            cases hv2 : s1.index (⟨procId, dep⟩ : Dot) with
                            | none => rw [hv2] at h; exact h
                            | some depVertex1 =>
                              rw [hv2] at h
                              exact ih _ _ _ hg' h
                        | notPending =>
                          dsimp only at h ⊢
                          cases hv1 : s1.index dot with
                          | none =>
                            rw [hv1] at h
                            cases hv2 : s1.index (⟨procId, dep⟩ : Dot) with
                            | none => rw [hv2] at h; exact h
                            | some y => rw [hv2] at h; exact h
                          | some vertex1 =>
                            rw [hv1] at h
                            cases hv2 : s1.index (⟨procId, dep⟩ : Dot) with
                            | none => rw [hv2] at h; exact h
                            | some depVertex1 =>
                              rw [hv2] at h
                              exact ih _ _ _ hg' h
                        | notFound =>
                          dsimp only at h ⊢
                          cases hv1 : s1.index dot with
                          | none =>
                            rw [hv1] at h
                            cases hv2 : s1.index (⟨procId, dep⟩ : Dot) with
                            | none => rw [hv2] at h; exact h
                            | some y => rw [hv2] at h; exact h
                          | some vertex1 =>
                            rw [hv1] at h
                            cases hv2 : s1.index (⟨procId, dep⟩ : Dot) with
                            | none => rw [hv2] at h; exact h
                            | some depVertex1 =>
                              rw [hv2] at h
                              exact ih _ _ _ hg' h
                  · rw [if_neg h4] at h ⊢
                    by_cases h5 : depVertex.onStack = true
                    · rw [if_pos h5] at h ⊢; exact ih _ _ _ hg' h
                    · rw [if_neg h5] at h ⊢; exact ih _ _ _ hg' h
    | finishConnect dot s =>
      rw [run_finishConnect] at h ⊢
      cases hv : s.index dot with
      | none => rw [hv] at h; exact h
      | some vertex =>
        rw [hv] at h
        dsimp only at h ⊢
        by_cases h1 : vertex.vid = vertex.low
        · rw [if_pos h1] at h ⊢; exact ih _ _ _ hg' h
        · rw [if_neg h1] at h ⊢; exact h
    | popLoop dot scc s =>
      rw [run_popLoop] at h ⊢
      cases hst : s.finder.stack with
      | nil => rw [hst] at h; exact h
      | cons memberDot stack =>
        rw [hst] at h
        dsimp only at h ⊢
        cases hv : s.index memberDot with
        | none => rw [hv] at h; exact h
        | some memberVertex =>
          rw [hv] at h
          dsimp only at h ⊢
          by_cases h1 : scc.contains memberDot = true
          · rw [if_pos h1] at h ⊢; exact h
          · rw [if_neg h1] at h ⊢
            by_cases h2 : (!(s.executed.add memberDot.source memberDot.sequence).1) = true
            · rw [if_pos h2] at h ⊢; exact h
            · rw [if_neg h2] at h ⊢
              by_cases h3 : memberDot = dot
              · rw [if_pos h3] at h ⊢; exact h
              · rw [if_neg h3] at h ⊢; exact ih _ _ _ hg' h

lemma dotLt_total (a b : Dot) : a = b ∨ dotLt a b ∨ dotLt b a := by
  rcases a with ⟨a1, a2⟩
  rcases b with ⟨b1, b2⟩
  rcases Nat.lt_trichotomy a1 b1 with h | h | h
  · exact Or.inr (Or.inl (Or.inl h))
  · rcases Nat.lt_trichotomy a2 b2 with h2 | h2 | h2
    · exact Or.inr (Or.inl (Or.inr ⟨h, h2⟩))
    · exact Or.inl (by rw [h, h2])
    · exact Or.inr (Or.inr (Or.inr ⟨h.symm, h2⟩))
  · exact Or.inr (Or.inr (Or.inl h))

/-- Inserting a non-member into a strictly sorted list keeps it strictly
sorted (the ordered-insert of the `BTreeSet` embedding). -/
lemma chain'_insertDot :
    ∀ (l : List Dot) (d : Dot), List.Chain' dotLt l → d ∉ l →
      List.Chain' dotLt (insertDot d l) := by
  intro l
  induction l with
  | nil => intro d _ _; simp [insertDot]
  | cons e rest ih =>
    intro d hchain hmem
    rw [insertDot]
    by_cases hde : dotLt d e
    · rw [if_pos hde]
      exact List.chain'_cons.mpr ⟨hde, hchain⟩
    · rw [if_neg hde]
      have hne : d ≠ e := fun hh => hmem (hh ▸ List.mem_cons_self e rest)
      have hed : dotLt e d := by
        rcases dotLt_total d e with h | h | h
        · exact absurd h hne
        · exact absurd h hde
        · exact h
      cases rest with
      | nil =>
        simp only [insertDot]
        exact List.chain'_cons.mpr ⟨hed, List.chain'_singleton d⟩
      | cons f rest' =>
        have hef : dotLt e f := (List.chain'_cons.mp hchain).1
        have hchain' : List.Chain' dotLt (f :: rest') := (List.chain'_cons.mp hchain).2
        have hmem' : d ∉ f :: rest' := fun hh => hmem (List.mem_cons_of_mem e hh)
        have ihres := ih d hchain' hmem'
        rw [insertDot]
        by_cases hdf : dotLt d f
        · rw [if_pos hdf]
          exact List.chain'_cons.mpr ⟨hed, List.chain'_cons.mpr ⟨hdf, hchain'⟩⟩
        · rw [if_neg hdf]
          rw [insertDot, if_neg hdf] at ihres
          exact List.chain'_cons.mpr ⟨hef, ihres⟩

/-- Every SCC emitted by a successful run of the finder is strictly sorted by
`Dot`, provided the SCCs (and the partially assembled one, for a pop in
progress) already collected were. -/
lemma tarjanRun_sccs_sorted :
    ∀ (fuel : Nat) (c : TCall) (res : FinderResult) (s' : GraphState),
      tarjanRun fuel c = some (.ok (res, s')) →
      sccSortedInv c →
      ∀ x ∈ s'.finder.sccs, List.Chain' dotLt x := by
  intro fuel
  induction fuel with
  | zero => intro c res s' h _; rw [run_zero] at h; cases h
  | succ fuel ih =>
    intro c res s' h hinv
    cases c with
    | sc dot s =>
      rw [run_sc] at h
      cases hv : s.index dot with
      | none => rw [hv] at h; simp at h
      | some vertex =>
        rw [hv] at h
        exact ih _ _ _ h hinv
    | procLoop dot items s =>
      cases items with
      | nil =>
        rw [run_procLoop_nil] at h
        exact ih _ _ _ h hinv
      | cons item items =>
        obtain ⟨procId, toSeq⟩ := item
        rw [run_procLoop_cons] at h
        cases hfr :
            (if s.finder.transitiveConflicts then (.ok toSeq : Except RustPanic Nat)
             else
               match s.executed.procs procId with
               | none => .error (.expectFailed "process should exist in the executed clock")
               | some l => .ok (frontier l + 1)) with
        | error e => rw [hfr] at h; simp at h
        | ok fromSeq => rw [hfr] at h; exact ih _ _ _ h hinv
    | depLoop dot procId deps items s =>
      cases deps with
      | nil =>
        rw [run_depLoop_nil] at h
        exact ih _ _ _ h hinv
      | cons dep deps =>
        rw [run_depLoop_cons] at h
        by_cases h1 : s.executed.contains procId dep = true
        · rw [if_pos h1] at h; exact ih _ _ _ h hinv
        · rw [if_neg h1] at h
          by_cases h2 : (⟨procId, dep⟩ : Dot) = dot
          · rw [if_pos h2] at h; exact ih _ _ _ h hinv
          · rw [if_neg h2] at h
            cases hdv : s.index (⟨procId, dep⟩ : Dot) with
            | none =>
              rw [hdv] at h
              dsimp only at h
              cases h
              exact hinv
            | some depVertex =>
              rw [hdv] at h
              dsimp only at h
              cases hv : s.index dot with
              | none => rw [hv] at h; simp at h
              | some vertex =>
                rw [hv] at h
                dsimp only at h
                by_cases h3 :
                    (!s.finder.transitiveConflicts && !(vertex.conflicts depVertex)) = true
                · rw [if_pos h3] at h; exact ih _ _ _ h hinv
                · rw [if_neg h3] at h
                  by_cases h4 : depVertex.vid = 0
                  · rw [if_pos h4] at h
                    cases hrec : tarjanRun fuel (.sc ⟨procId, dep⟩ s) with
                    | none => rw [hrec] at h; simp at h
                    | some x =>
                      rw [hrec] at h
                      cases x with
                      | error e => simp at h
                      | ok pr =>
                        obtain ⟨res1, s1⟩ := pr
                        have hs1 : ∀ x ∈ s1.finder.sccs, List.Chain' dotLt x :=
                          ih _ _ _ hrec hinv
                        cases res1 with
                        | missingDependency d =>
                          dsimp only at h
                          cases h
                          exact hs1
                        | found =>
                          dsimp only at h
                          cases hv1 : s1.index dot with
                          | none =>
                            rw [hv1] at h
                            cases hv2 : s1.index (⟨procId, dep⟩ : Dot) with
                            | none => rw [hv2] at h; simp at h
                            | some y => rw [hv2] at h; simp at h
                          | some vertex1 =>
                            rw [hv1] at h
                            cases hv2 : s1.index (⟨procId, dep⟩ : Dot) with
                            | none => rw [hv2] at h; simp at h
                            | some depVertex1 =>
                              rw [hv2] at h
                              exact ih _ _ _ h hs1
                        | notPending =>
                          dsimp only at h
                          cases hv1 : s1.index dot with
                          | none =>
                            rw [hv1] at h
                            cases hv2 : s1.index (⟨procId, dep⟩ : Dot) with
                            | none => rw [hv2] at h; simp at h
                            | some y => rw [hv2] at h; simp at h
                          | some vertex1 =>
                            rw [hv1] at h
                            cases hv2 : s1.index (⟨procId, dep⟩ : Dot) with
                            | none => rw [hv2] at h; simp at h
                            | some depVertex1 =>
                              rw [hv2] at h
                              exact ih _ _ _ h hs1
                        | notFound =>
                          dsimp only at h
                          cases hv1 : s1.index dot with
                          | none =>
                            rw [hv1] at h
                            cases hv2 : s1.index (⟨procId, dep⟩ : Dot) with
                            | none => rw [hv2] at h; simp at h
                            | some y => rw [hv2] at h; simp at h
                          | some vertex1 =>
                            rw [hv1] at h
                            cases hv2 : s1.index (⟨procId, dep⟩ : Dot) with
                            | none => rw [hv2] at h; simp at h
                            | some depVertex1 =>
                              rw [hv2] at h
                              exact ih _ _ _ h hs1
                  · rw [if_neg h4] at h
                    by_cases h5 : depVertex.onStack = true
                    · rw [if_pos h5] at h; exact ih _ _ _ h hinv
                    · rw [if_neg h5] at h; exact ih _ _ _ h hinv
    | finishConnect dot s =>
      rw [run_finishConnect] at h
      cases hv : s.index dot with
      | none => rw [hv] at h; simp at h
      | some vertex =>
        rw [hv] at h
        dsimp only at h
        by_cases h1 : vertex.vid = vertex.low
        · rw [if_pos h1] at h
          exact ih _ _ _ h ⟨List.chain'_nil, hinv⟩
        · rw [if_neg h1] at h
          cases h
          exact hinv
    | popLoop dot scc s =>
      obtain ⟨hscc, hsccs⟩ := hinv
      rw [run_popLoop] at h
      cases hst : s.finder.stack with
      | nil => rw [hst] at h; simp at h
      | cons memberDot stack =>
        rw [hst] at h
        dsimp only at h
        cases hv : s.index memberDot with
        | none => rw [hv] at h; simp at h
        | some memberVertex =>
          rw [hv] at h
          dsimp only at h
          by_cases h1 : scc.contains memberDot = true
          · rw [if_pos h1] at h; simp at h
          · rw [if_neg h1] at h
            have hnotmem : memberDot ∉ scc := by
              intro hm
              exact h1 (List.elem_iff.mpr hm)
            have hsorted : List.Chain' dotLt (insertDot memberDot scc) :=
              chain'_insertDot scc memberDot hscc hnotmem
            by_cases h2 : (!(s.executed.add memberDot.source memberDot.sequence).1) = true
            · rw [if_pos h2] at h; simp at h
            · rw [if_neg h2] at h
              by_cases h3 : memberDot = dot
              · rw [if_pos h3] at h
                cases h
                intro x hx
                rcases List.mem_append.mp hx with hold | hnew
                · exact hsccs x hold
                · rw [List.mem_singleton.mp hnew]
                  exact hsorted
              · rw [if_neg h3] at h
                exact ih _ _ _ h ⟨hsorted, hsccs⟩

/-- `Exec` composition: spending one more unit of fuel. -/
lemma Exec_of_step (c c' : TCall) (r : Except RustPanic (FinderResult × GraphState))
    (hstep : ∀ fuel, tarjanRun (fuel + 1) c = tarjanRun fuel c')
    (h : Exec c' r) : Exec c r := by
  obtain ⟨f, hf⟩ := h
  exact ⟨f + 1, by rw [hstep f]; exact hf⟩

lemma vertex_eta_low (v : Vertex) : ({ v with low := v.low } : Vertex) = v := rfl

lemma state_update_self (s : GraphState) (dotI : Dot) (vi : Vertex)
    (hvi : s.index dotI = some vi) :
    ({ s with index := Function.update s.index dotI (some vi) } : GraphState) = s := by
  rw [← hvi, Function.update_eq_self]

/-- Entering `strong_connect`: push the root and visit its clock. -/
lemma Exec_sc (dotI : Dot) (s : GraphState) (v : Vertex)
    (r : Except RustPanic (FinderResult × GraphState))
    (hv : s.index dotI = some v)
    (hcont : Exec (.procLoop dotI v.clock
      { s with
        finder := { s.finder with id := s.finder.id + 1, stack := dotI :: s.finder.stack },
        index := Function.update s.index dotI
          (some { v with vid := s.finder.id + 1, low := s.finder.id + 1, onStack := true }) }) r) :
    Exec (.sc dotI s) r := by
  obtain ⟨f, hf⟩ := hcont
  refine ⟨f + 1, ?_⟩
  rw [run_sc, hv]
  exact hf

/-- A dependency-clock item of the cycle pointing at a visited, on-stack
vertex: the root's low-link is min-ed with that vertex's id and the loop
moves on. -/
lemma Exec_item_onstack (dotI : Dot) (j : Nat) (items : List (ProcessId × Nat))
    (s : GraphState) (r : Except RustPanic (FinderResult × GraphState))
    (vi vj : Vertex)
    (htc : s.finder.transitiveConflicts = false)
    (hex : s.executed.procs j = some [])
    (hvj : s.index ⟨j, 1⟩ = some vj)
    (hvid : vj.vid ≠ 0) (hstk : vj.onStack = true)
    (hvi : s.index dotI = some vi)
    (hconf : vi.conflicts vj = true)
    (hne : (⟨j, 1⟩ : Dot) ≠ dotI)
    (hcont : Exec (.procLoop dotI items
        { s with index := Function.update s.index dotI (some { vi with low := min vi.low vj.vid }) }) r) :
    Exec (.procLoop dotI ((j, 1) :: items) s) r := by
  obtain ⟨f, hf⟩ := hcont
  refine ⟨f + 1 + 1 + 1, ?_⟩
  rw [run_procLoop_cons, if_neg (show ¬(s.finder.transitiveConflicts = true) by simp [htc]),
    hex]
  dsimp only
  rw [show ((List.range' (frontier ([] : List Nat) + 1)
      (1 + 1 - (frontier ([] : List Nat) + 1))).reverse : List Nat) = [1] from rfl]
  rw [run_depLoop_cons,
    if_neg (show ¬(s.executed.contains j 1 = true) by simp [AEClock.contains, hex]),
    if_neg hne, hvj]
  dsimp only
  rw [hvi]
  dsimp only
  rw [if_neg (show ¬((!s.finder.transitiveConflicts && !(vi.conflicts vj)) = true) by
      simp [htc, hconf]),
    if_neg hvid, if_pos hstk, run_depLoop_nil]
  exact hf

/-- The self-dependency item of the cycle root is skipped. -/
lemma Exec_item_self (dotI : Dot) (items : List (ProcessId × Nat)) (s : GraphState)
    (r : Except RustPanic (FinderResult × GraphState))
    (htc : s.finder.transitiveConflicts = false)
    (hex : s.executed.procs dotI.source = some [])
    (hseq : dotI.sequence = 1)
    (hcont : Exec (.procLoop dotI items s) r) :
    Exec (.procLoop dotI ((dotI.source, 1) :: items) s) r := by
  obtain ⟨f, hf⟩ := hcont
  refine ⟨f + 1 + 1 + 1, ?_⟩
  rw [run_procLoop_cons, if_neg (show ¬(s.finder.transitiveConflicts = true) by simp [htc]),
    hex]
  dsimp only
  rw [show ((List.range' (frontier ([] : List Nat) + 1)
      (1 + 1 - (frontier ([] : List Nat) + 1))).reverse : List Nat) = [1] from rfl]
  rw [run_depLoop_cons,
    if_neg (show ¬(s.executed.contains dotI.source 1 = true) by
      simp [AEClock.contains, hex]),
    if_pos (show (⟨dotI.source, 1⟩ : Dot) = dotI by
      rcases dotI with ⟨a, b⟩; simp only at hseq ⊢; rw [hseq]),
    run_depLoop_nil]
  exact hf

/-- Checking the `finishConnect` outcome when the root is not the low-link
root: `NotFound` with the state untouched. -/
lemma Exec_finish_notFound (dotI : Dot) (s : GraphState) (vi : Vertex)
    (hvi : s.index dotI = some vi) (hnl : ¬ vi.vid = vi.low) :
    Exec (.finishConnect dotI s) (.ok (.notFound, s)) := by
  refine ⟨1, ?_⟩
  rw [run_finishConnect, hvi]
  dsimp only
  rw [if_neg hnl]

/-- The `finishConnect` outcome when the root closed its own SCC: pop. -/
lemma Exec_finish_pop (dotI : Dot) (s : GraphState) (vi : Vertex)
    (r : Except RustPanic (FinderResult × GraphState))
    (hvi : s.index dotI = some vi) (hl : vi.vid = vi.low)
    (hcont : Exec (.popLoop dotI [] s) r) :
    Exec (.finishConnect dotI s) r := by
  obtain ⟨f, hf⟩ := hcont
  refine ⟨f + 1, ?_⟩
  rw [run_finishConnect, hvi]
  dsimp only
  rw [if_pos hl]
  exact hf

lemma Exec_procLoop_nil (dotI : Dot) (s : GraphState)
    (r : Except RustPanic (FinderResult × GraphState))
    (hcont : Exec (.finishConnect dotI s) r) :
    Exec (.procLoop dotI [] s) r := by
  obtain ⟨f, hf⟩ := hcont
  exact ⟨f + 1, by rw [run_procLoop_nil]; exact hf⟩

/-- A dependency-clock item of the cycle pointing at an unvisited vertex:
recurse into it; provided the recursion does not report a missing dependency,
the root's low-link is min-ed with the dependency's low-link and the loop
moves on. -/
lemma Exec_item_recurse (dotI : Dot) (j : Nat) (items : List (ProcessId × Nat))
    (s s1 : GraphState) (r : Except RustPanic (FinderResult × GraphState))
    (vi vj vi1 vj1 : Vertex) (res1 : FinderResult)
    (htc : s.finder.transitiveConflicts = false)
    (hex : s.executed.procs j = some [])
    (hvj : s.index ⟨j, 1⟩ = some vj) (hvid : vj.vid = 0)
    (hne : (⟨j, 1⟩ : Dot) ≠ dotI)
    (hvi : s.index dotI = some vi)
    (hconf : vi.conflicts vj = true)
    (hrec : Exec (.sc ⟨j, 1⟩ s) (.ok (res1, s1)))
    (hres : ∀ d, res1 ≠ .missingDependency d)
    (hvi1 : s1.index dotI = some vi1) (hvj1 : s1.index ⟨j, 1⟩ = some vj1)
    (hcont : Exec (.procLoop dotI items
        { s1 with index := Function.update s1.index dotI (some { vi1 with low := min vi1.low vj1.low }) }) r) :
    Exec (.procLoop dotI ((j, 1) :: items) s) r := by
  obtain ⟨f1, hf1⟩ := hrec
  obtain ⟨f2, hf2⟩ := hcont
  refine ⟨max f1 f2 + 1 + 1 + 1, ?_⟩
  rw [run_procLoop_cons, if_neg (show ¬(s.finder.transitiveConflicts = true) by simp [htc]),
    hex]
  dsimp only
  rw [show ((List.range' (frontier ([] : List Nat) + 1)
      (1 + 1 - (frontier ([] : List Nat) + 1))).reverse : List Nat) = [1] from rfl]
  rw [run_depLoop_cons,
    if_neg (show ¬(s.executed.contains j 1 = true) by simp [AEClock.contains, hex]),
    if_neg hne, hvj]
  dsimp only
  rw [hvi]
  dsimp only
  rw [if_neg (show ¬((!s.finder.transitiveConflicts && !(vi.conflicts vj)) = true) by
      simp [htc, hconf]),
    if_pos hvid,
    tarjanRun_mono f1 _ _ _ (Nat.le_succ_of_le (Nat.le_max_left f1 f2)) hf1]
  cases res1 with
  | missingDependency d => exact absurd rfl (hres d)
  | found =>
    dsimp only
    rw [hvi1, hvj1]
    dsimp only
    rw [run_depLoop_nil]
    exact tarjanRun_mono f2 _ _ _ (Nat.le_max_right f1 f2) hf2
  | notPending =>
    dsimp only
    rw [hvi1, hvj1]
    dsimp only
    rw [run_depLoop_nil]
    exact tarjanRun_mono f2 _ _ _ (Nat.le_max_right f1 f2) hf2
  | notFound =>
    dsimp only
    rw [hvi1, hvj1]
    dsimp only
    rw [run_depLoop_nil]
    exact tarjanRun_mono f2 _ _ _ (Nat.le_max_right f1 f2) hf2

lemma range1_cons (s n : Nat) : List.range' s (n + 1) = s :: List.range' (s + 1) n := rfl

lemma range1_append :
    ∀ (m s n : Nat), List.range' s m ++ List.range' (s + m) n = List.range' s (m + n) := by
  intro m
  induction m with
  | zero => intro s n; simp
  | succ m ih =>
    intro s n
    rw [range1_cons s m, show s + (m + 1) = (s + 1) + m by omega, List.cons_append,
      ih (s + 1) n, show m + 1 + n = (m + n) + 1 by omega, range1_cons]

lemma stackOf_zero : stackOf 0 = [] := rfl

lemma stackOf_succ (m : Nat) :
    stackOf (m + 1) = (⟨m + 1, 1⟩ : Dot) :: stackOf m := by
  unfold stackOf
  rw [show List.range' 1 (m + 1) = List.range' 1 m ++ List.range' (1 + m) 1 from
    (range1_append m 1 1).symm]
  rw [show (List.range' (1 + m) 1 : List Nat) = [1 + m] from rfl]
  rw [List.map_append, List.reverse_append]
  simp [Nat.add_comm 1 m]

lemma dotSeg_cons (m k : Nat) (h : m ≤ k) :
    dotSeg m k = (⟨m, 1⟩ : Dot) :: dotSeg (m + 1) k := by
  unfold dotSeg
  rw [show k + 1 - m = (k - m) + 1 by omega, range1_cons,
    show k + 1 - (m + 1) = k - m by omega]
  rfl

lemma dotSeg_empty (m k : Nat) (h : k < m) : dotSeg m k = [] := by
  unfold dotSeg
  rw [show k + 1 - m = 0 by omega]
  rfl

lemma mem_dotSeg (d : Dot) (a b : Nat) :
    d ∈ dotSeg a b ↔ a ≤ d.source ∧ d.source ≤ b ∧ d.sequence = 1 := by
  unfold dotSeg
  rcases d with ⟨ds, dq⟩
  simp only [List.mem_map, List.mem_range'_1, Dot.mk.injEq]
  constructor
  · rintro ⟨j, ⟨hj1, hj2⟩, rfl, rfl⟩
    refine ⟨hj1, ?_, rfl⟩
    rcases Nat.le_total a (b + 1) with hab | hab
    · rw [Nat.add_sub_cancel' hab] at hj2
      exact Nat.lt_succ_iff.mp hj2
    · rw [Nat.sub_eq_zero_of_le hab, Nat.add_zero] at hj2
      exact absurd hj1 (Nat.not_le_of_lt hj2)
  · rintro ⟨h1, h2, rfl⟩
    have hab : a ≤ b + 1 := le_trans h1 (le_trans h2 (Nat.le_succ b))
    refine ⟨ds, ⟨h1, ?_⟩, rfl, rfl⟩
    rw [Nat.add_sub_cancel' hab]
    exact Nat.lt_succ_of_le h2

lemma contains_eq_false_of_not_mem (l : List Dot) (x : Dot) (h : x ∉ l) :
    l.contains x = false := by
  cases hc : l.contains x
  · rfl
  · exact absurd (List.elem_iff.mp hc) h

lemma insertDot_dotSeg (a k : Nat) (h1 : 1 ≤ a) (h2 : a ≤ k) :
    insertDot ⟨a, 1⟩ (dotSeg (a + 1) k) = dotSeg a k := by
  by_cases hak : a = k
  · subst hak
    rw [dotSeg_empty (a + 1) a (by omega), dotSeg_cons a a le_rfl,
      dotSeg_empty (a + 1) a (by omega)]
    rfl
  · rw [dotSeg_cons (a + 1) k (by omega), insertDot,
      if_pos (show dotLt ⟨a, 1⟩ ⟨a + 1, 1⟩ from Or.inl (Nat.lt_succ_self a)),
      dotSeg_cons a k h2, dotSeg_cons (a + 1) k (by omega)]

lemma itemSeg_cons (a n : Nat) : itemSeg a (n + 1) = (a, 1) :: itemSeg (a + 1) n := rfl

lemma itemSeg_split (a m n : Nat) :
    itemSeg a (m + n) = itemSeg a m ++ itemSeg (a + m) n := by
  unfold itemSeg
  rw [← range1_append m a n, List.map_append]

lemma conflicts_cmdA (vi vj : Vertex) (h1 : vi.cmd = cmdA) (h2 : vj.cmd = cmdA) :
    vi.conflicts vj = true := by
  unfold Vertex.conflicts
  rw [h1, h2]
  rfl

lemma update_twice {α β : Type} [DecidableEq α] (f : α → β) (a : α) (b c : β) :
    Function.update (Function.update f a b) a c = Function.update f a c := by
  funext x
  by_cases hx : x = a
  · subst hx
    rw [Function.update_same, Function.update_same]
  · rw [Function.update_noteq hx, Function.update_noteq hx, Function.update_noteq hx]

/-- A run of dependency-clock items all pointing at visited, on-stack cycle
vertices is a no-op for a root whose low-link is already 1: each item only
re-computes `low = min 1 j = 1`. -/
lemma Exec_seg_onstack :
    ∀ (n a : Nat) (items : List (ProcessId × Nat)) (s : GraphState)
      (dotI : Dot) (vi : Vertex) (r : Except RustPanic (FinderResult × GraphState)),
      s.finder.transitiveConflicts = false →
      s.index dotI = some vi → vi.low = 1 → vi.cmd = cmdA →
      (∀ j, a ≤ j → j < a + n →
        s.executed.procs j = some [] ∧ (⟨j, 1⟩ : Dot) ≠ dotI ∧ 1 ≤ j ∧
        ∃ vj : Vertex, s.index ⟨j, 1⟩ = some vj ∧
          vj.vid = j ∧ vj.onStack = true ∧ vj.cmd = cmdA) →
      Exec (.procLoop dotI items s) r →
      Exec (.procLoop dotI (itemSeg a n ++ items) s) r := by
  intro n
  induction n with
  | zero => intro a items s dotI vi r _ _ _ _ _ h; exact h
  | succ n ih =>
    intro a items s dotI vi r htc hvi hlow hcmd hseg h
    rw [itemSeg_cons, List.cons_append]
    obtain ⟨hexj, hne, hj1, vj, hvj, hvjvid, hvjstk, hvjcmd⟩ :=
      hseg a le_rfl (by omega)
    refine Exec_item_onstack dotI a (itemSeg (a + 1) n ++ items) s r vi vj htc hexj hvj
      (by rw [hvjvid]; omega) hvjstk hvi (conflicts_cmdA vi vj hcmd hvjcmd) hne ?_
    have hmin : min vi.low vj.vid = vi.low := by
      rw [hlow, hvjvid]
      omega
    rw [hmin, vertex_eta_low, state_update_self s dotI vi hvi]
    exact ih (a + 1) items s dotI vi r htc hvi hlow hcmd
      (fun j hj1' hj2' => hseg j (by omega) (by omega)) h

/-- The pop phase of the root traversal: with `d_1 .. d_m` still on the stack
(all visited, `low = 1`) and `d_{m+1} .. d_k` already collected into the SCC,
popping continues down to the root `d_1` and emits exactly the SCC
`{d_1, ..., d_k}` in `Dot` order. -/
lemma Exec_pop (k : Nat) :
    ∀ (m : Nat), 1 ≤ m → m ≤ k →
    ∀ (s : GraphState),
      s.finder.stack = stackOf m →
      s.finder.sccs = [] →
      s.found = k - m →
      (∀ j, 1 ≤ j → j ≤ m →
        s.index ⟨j, 1⟩ = some ⟨⟨j, 1⟩, cmdA, cycleClock k, j, 1, true⟩) →
      (∀ p, 1 ≤ p → p ≤ m → s.executed.procs p = some []) →
      ∃ s', Exec (.popLoop ⟨1, 1⟩ (dotSeg (m + 1) k) s) (.ok (.found, s')) ∧
        s'.finder.sccs = [dotSeg 1 k] ∧ s'.finder.stack = [] ∧ s'.found = k := by
  intro m
  induction m with
  | zero => intro h0; cases h0
  | succ m ih =>
    intro _ hmk s hstk hsccs hfound hidx hex
    have hvm : s.index ⟨m + 1, 1⟩ = some ⟨⟨m + 1, 1⟩, cmdA, cycleClock k, m + 1, 1, true⟩ :=
      hidx (m + 1) (by omega) le_rfl
    have hnotmem : (⟨m + 1, 1⟩ : Dot) ∉ dotSeg (m + 1 + 1) k := by
      rw [mem_dotSeg]
      dsimp only
      omega
    have hcont : (dotSeg (m + 1 + 1) k).contains ⟨m + 1, 1⟩ = false :=
      contains_eq_false_of_not_mem _ _ hnotmem
    have hexm : s.executed.procs (m + 1) = some [] := hex (m + 1) (by omega) le_rfl
    have hadd : s.executed.add (m + 1) 1 =
        (true, ⟨Function.update s.executed.procs (m + 1) (some [1])⟩) := by
      simp [AEClock.add, hexm]
    by_cases hm0 : m = 0
    · -- the member popped is the root `d_1` itself: emit the SCC
      subst hm0
      refine
        ⟨{ s with
            finder :=
              { s.finder with
                stack := [],
                sccs := s.finder.sccs ++ [insertDot ⟨0 + 1, 1⟩ (dotSeg (0 + 1 + 1) k)] },
            index := Function.update s.index ⟨0 + 1, 1⟩
              (some ⟨⟨0 + 1, 1⟩, cmdA, cycleClock k, 0 + 1, 1, false⟩),
            executed := ⟨Function.update s.executed.procs (0 + 1) (some [1])⟩,
            found := s.found + 1 },
          ⟨1, ?_⟩, ?_, ?_, ?_⟩
      · rw [run_popLoop, hstk, stackOf_succ, stackOf_zero]
        dsimp only
        rw [hvm]
        dsimp only
        rw [if_neg (by rw [hcont]; exact Bool.false_ne_true)]
        rw [hadd]
        dsimp only
        rw [if_pos rfl]
        rfl
      · dsimp only
        rw [hsccs]
        simp only [Nat.zero_add]
        rw [show (1 + 1 : Nat) = 2 from rfl,
          show dotSeg 2 k = dotSeg (1 + 1) k from rfl,
          insertDot_dotSeg 1 k le_rfl (by omega)]
        rfl
      · rfl
      · dsimp only
        rw [hfound]
        omega
    · -- pop `d_{m+1}` and continue with the stack `d_1 .. d_m`
      have hm1 : 1 ≤ m := by omega
      set snew : GraphState :=
        { s with
          finder := { s.finder with stack := stackOf m },
          index := Function.update s.index ⟨m + 1, 1⟩
            (some ⟨⟨m + 1, 1⟩, cmdA, cycleClock k, m + 1, 1, false⟩),
          executed := ⟨Function.update s.executed.procs (m + 1) (some [1])⟩,
          found := s.found + 1 } with hsnew
      have hidx' : ∀ j, 1 ≤ j → j ≤ m →
          snew.index ⟨j, 1⟩ = some ⟨⟨j, 1⟩, cmdA, cycleClock k, j, 1, true⟩ := by
        intro j hj1 hjm
        rw [hsnew]
        have : (⟨j, 1⟩ : Dot) ≠ ⟨m + 1, 1⟩ := by
          intro hh
          cases hh
          omega
        dsimp only
        rw [Function.update_noteq this]
        exact hidx j hj1 (by omega)
      have hex' : ∀ p, 1 ≤ p → p ≤ m → snew.executed.procs p = some [] := by
        intro p hp1 hpm
        rw [hsnew]
        dsimp only
        rw [Function.update_noteq
          (show p ≠ m + 1 by
            intro hh
            rw [hh] at hpm
            exact Nat.not_succ_le_self m hpm)]
        exact hex p hp1 (Nat.le_succ_of_le hpm)
      obtain ⟨s', hexec', hsccs', hstk', hfound'⟩ :=
        ih hm1 (by omega) snew (by rw [hsnew]) (by rw [hsnew]; exact hsccs)
          (by rw [hsnew]; dsimp only; rw [hfound]; omega) hidx' hex'
      obtain ⟨f, hf⟩ := hexec'
      refine ⟨s', ⟨f + 1, ?_⟩, hsccs', hstk', hfound'⟩
      rw [run_popLoop, hstk, stackOf_succ]
      dsimp only
      rw [hvm]
      dsimp only
      rw [if_neg (by rw [hcont]; exact Bool.false_ne_true)]
      rw [hadd]
      dsimp only
      rw [if_neg (show ¬(⟨m + 1, 1⟩ : Dot) = ⟨1, 1⟩ by
        intro hh; cases hh; omega)]
      rw [insertDot_dotSeg (m + 1) k (by omega) hmk]
      exact hf

lemma dot_ne_of_src {a b : Nat} (h : a ≠ b) : (⟨a, 1⟩ : Dot) ≠ ⟨b, 1⟩ := by
  intro hh
  injection hh with h1 h2
  exact h h1

lemma lowState_idx_self (k i : Nat) (s : GraphState) :
    (lowState k i s).index ⟨i, 1⟩ =
      some ⟨⟨i, 1⟩, cmdA, cycleClock k, i, 1, true⟩ :=
  Function.update_same _ _ _

lemma lowState_idx_ne (k i : Nat) (s : GraphState) (d : Dot) (hd : d ≠ ⟨i, 1⟩) :
    (lowState k i s).index d = s.index d :=
  Function.update_noteq hd _ _

lemma pushState_idx_self (k i : Nat) (s : GraphState) :
    (pushState k i s).index ⟨i, 1⟩ =
      some ⟨⟨i, 1⟩, cmdA, cycleClock k, i, i, true⟩ :=
  Function.update_same _ _ _

lemma pushState_idx_ne (k i : Nat) (s : GraphState) (d : Dot) (hd : d ≠ ⟨i, 1⟩) :
    (pushState k i s).index d = s.index d :=
  Function.update_noteq hd _ _

/-- Collapsing the root's low-link update over the freshly pushed state. -/
lemma pushState_to_lowState (k i : Nat) (s : GraphState) :
    ({ pushState k i s with
        index := Function.update (pushState k i s).index ⟨i, 1⟩
          (some ⟨⟨i, 1⟩, cmdA, cycleClock k, i, 1, true⟩) } : GraphState) =
      lowState k i s := by
  unfold pushState lowState
  dsimp only
  rw [update_twice]

/-- Visiting the non-root cycle vertex `(i, 1)` (for `2 ≤ i ≤ k`) from the
cycle-entry invariant: the recursion visits `(i+1, 1), ..., (k, 1)` in turn,
every vertex ends on the stack with `low = 1`, and the visit returns
`NotFound` (the SCC is closed only at the root). -/
lemma cycle_visit (k : Nat) :
    ∀ (m : Nat), ∀ (i : Nat), i + m = k + 1 → 2 ≤ i → i ≤ k →
    ∀ (s : GraphState), CycleEntry k i s →
      ∃ s', Exec (.sc ⟨i, 1⟩ s) (.ok (.notFound, s')) ∧ CycleDone k s' := by
  intro m
  induction m with
  | zero =>
    intro i him h2i hik s hentry
    exact absurd him (by omega)
  | succ m ih =>
    intro i him h2i hik s hentry
    obtain ⟨i'', rfl⟩ : ∃ i'', i = i'' + 2 := ⟨i - 2, by omega⟩
    obtain ⟨htc, hid, hstk, hsccs, hvis, hunvis, hexec, hfound⟩ := hentry
    have hid' : s.finder.id = i'' + 1 := hid
    have hstk' : s.finder.stack = stackOf (i'' + 1) := hstk
    have hvroot : s.index ⟨i'' + 2, 1⟩ =
        some ⟨⟨i'' + 2, 1⟩, cmdA, cycleClock k, 0, 0, false⟩ :=
      hunvis (i'' + 2) le_rfl hik
    have hslowtc : (lowState k (i'' + 2) s).finder.transitiveConflicts = false := htc
    have hslowexec : ∀ p, 1 ≤ p → p ≤ k →
        (lowState k (i'' + 2) s).executed.procs p = some [] := hexec
    have hA1 : cycleClock k = (1, 1) :: itemSeg 2 (k - 1) := by
      rw [show cycleClock k = itemSeg 1 k from rfl]
      nth_rewrite 1 [show k = (k - 1) + 1 by omega]
      rw [itemSeg_cons]
    have hA2 : itemSeg 2 (k - 1) = itemSeg 2 i'' ++ itemSeg (i'' + 2) (k - 1 - i'') := by
      nth_rewrite 1 [show k - 1 = i'' + (k - 1 - i'') by omega]
      rw [itemSeg_split, Nat.add_comm 2 i'']
    -- item 1 of the root's clock, taken from the freshly pushed state
    have hitem1 : ∀ (L : List (ProcessId × Nat)) (r : Except RustPanic (FinderResult × GraphState)),
        Exec (.procLoop ⟨i'' + 2, 1⟩ L (lowState k (i'' + 2) s)) r →
        Exec (.procLoop ⟨i'' + 2, 1⟩ ((1, 1) :: L) (pushState k (i'' + 2) s)) r := by
      intro L r hL
      have hv1 : (pushState k (i'' + 2) s).index ⟨1, 1⟩ =
          some ⟨⟨1, 1⟩, cmdA, cycleClock k, 1, 1, true⟩ := by
        rw [pushState_idx_ne k (i'' + 2) s ⟨1, 1⟩ (dot_ne_of_src (by omega))]
        exact hvis 1 le_rfl (by omega)
      refine Exec_item_onstack ⟨i'' + 2, 1⟩ 1 L (pushState k (i'' + 2) s) r _ _
        htc (hexec 1 le_rfl (by omega)) hv1 (by dsimp only; omega) rfl
        (pushState_idx_self k (i'' + 2) s) (conflicts_cmdA _ _ rfl rfl)
        (dot_ne_of_src (by omega)) ?_
      dsimp only
      rw [min_eq_right (show (1 : Nat) ≤ i'' + 2 by omega)]
      rw [pushState_to_lowState k (i'' + 2) s]
      exact hL
    -- items 2 .. i''+1 of the root's clock are no-ops on the low state
    have hpre : ∀ (L : List (ProcessId × Nat)) (r : Except RustPanic (FinderResult × GraphState)),
        Exec (.procLoop ⟨i'' + 2, 1⟩ L (lowState k (i'' + 2) s)) r →
        Exec (.procLoop ⟨i'' + 2, 1⟩ (itemSeg 2 i'' ++ L) (lowState k (i'' + 2) s)) r := by
      intro L r hL
      refine Exec_seg_onstack i'' 2 L (lowState k (i'' + 2) s) ⟨i'' + 2, 1⟩ _ r
        hslowtc (lowState_idx_self k (i'' + 2) s) rfl rfl ?_ hL
      intro j hj1 hj2
      refine ⟨hslowexec j (by omega) (by omega), dot_ne_of_src (by omega), by omega,
        ⟨⟨⟨j, 1⟩, cmdA, cycleClock k, j, 1, true⟩, ?_, rfl, rfl, rfl⟩⟩
      rw [lowState_idx_ne k (i'' + 2) s ⟨j, 1⟩ (dot_ne_of_src (by omega))]
      exact hvis j (by omega) (by omega)
    -- the push itself
    have hpush : ∀ (r : Except RustPanic (FinderResult × GraphState)),
        Exec (.procLoop ⟨i'' + 2, 1⟩ (cycleClock k) (pushState k (i'' + 2) s)) r →
        Exec (.sc ⟨i'' + 2, 1⟩ s) r := by
      intro r hr
      refine Exec_sc ⟨i'' + 2, 1⟩ s _ r hvroot ?_
      dsimp only
      rw [hid', show i'' + 1 + 1 = i'' + 2 from rfl, hstk',
        show ((⟨i'' + 2, 1⟩ : Dot) :: stackOf (i'' + 1) : List Dot) = stackOf (i'' + 2) from
          (stackOf_succ (i'' + 1)).symm]
      exact hr
    rcases Nat.lt_or_ge (i'' + 2) k with hcase | hcase
    · -- the root is not the last cycle vertex: recurse into `(i''+3, 1)`
      have hentry2 : CycleEntry k (i'' + 3) (lowState k (i'' + 2) s) := by
        refine ⟨hslowtc, rfl, rfl, hsccs, ?_, ?_, hslowexec, hfound⟩
        · intro j hj1 hj2
          by_cases hji : j = i'' + 2
          · subst hji
            exact lowState_idx_self k (i'' + 2) s
          · rw [lowState_idx_ne k (i'' + 2) s ⟨j, 1⟩ (dot_ne_of_src hji)]
            exact hvis j hj1 (by omega)
        · intro j hj1 hj2
          rw [lowState_idx_ne k (i'' + 2) s ⟨j, 1⟩ (dot_ne_of_src (by omega))]
          exact hunvis j (by omega) hj2
      obtain ⟨s1, hrec, hdone1⟩ :=
        ih (i'' + 3) (by omega) (by omega) (by omega) (lowState k (i'' + 2) s) hentry2
      obtain ⟨htc1, hid1, hstk1, hsccs1, hvis1, hexec1, hfound1⟩ := hdone1
      have hvroot1 : s1.index ⟨i'' + 2, 1⟩ =
          some ⟨⟨i'' + 2, 1⟩, cmdA, cycleClock k, i'' + 2, 1, true⟩ :=
        hvis1 (i'' + 2) (by omega) (by omega)
      have hvrec1 : s1.index ⟨i'' + 3, 1⟩ =
          some ⟨⟨i'' + 3, 1⟩, cmdA, cycleClock k, i'' + 3, 1, true⟩ :=
        hvis1 (i'' + 3) (by omega) (by omega)
      have hfin : Exec (.finishConnect ⟨i'' + 2, 1⟩ s1) (.ok (.notFound, s1)) :=
        Exec_finish_notFound _ _ _ hvroot1 (by dsimp only; omega)
      have hnil : Exec (.procLoop ⟨i'' + 2, 1⟩ [] s1) (.ok (.notFound, s1)) :=
        Exec_procLoop_nil _ _ _ hfin
      have htail : Exec (.procLoop ⟨i'' + 2, 1⟩ (itemSeg (i'' + 4) (k - i'' - 3) ++ []) s1)
          (.ok (.notFound, s1)) := by
        refine Exec_seg_onstack (k - i'' - 3) (i'' + 4) [] s1 ⟨i'' + 2, 1⟩ _ _
          htc1 hvroot1 rfl rfl ?_ hnil
        intro j hj1 hj2
        exact ⟨hexec1 j (by omega) (by omega), dot_ne_of_src (by omega), by omega,
          ⟨⟨⟨j, 1⟩, cmdA, cycleClock k, j, 1, true⟩, hvis1 j (by omega) (by omega), rfl, rfl, rfl⟩⟩
      rw [List.append_nil] at htail
      have hvj : (lowState k (i'' + 2) s).index ⟨i'' + 3, 1⟩ =
          some ⟨⟨i'' + 3, 1⟩, cmdA, cycleClock k, 0, 0, false⟩ := by
        rw [lowState_idx_ne k (i'' + 2) s ⟨i'' + 3, 1⟩ (dot_ne_of_src (by omega))]
        exact hunvis (i'' + 3) (by omega) (by omega)
      have hrecitem : Exec (.procLoop ⟨i'' + 2, 1⟩
          ((i'' + 3, 1) :: itemSeg (i'' + 4) (k - i'' - 3)) (lowState k (i'' + 2) s))
          (.ok (.notFound, s1)) := by
        refine Exec_item_recurse ⟨i'' + 2, 1⟩ (i'' + 3) _ (lowState k (i'' + 2) s) s1 _
          _ _ _ _ .notFound hslowtc (hslowexec (i'' + 3) (by omega) (by omega)) hvj rfl
          (dot_ne_of_src (by omega)) (lowState_idx_self k (i'' + 2) s)
          (conflicts_cmdA _ _ rfl rfl) hrec (fun d hh => FinderResult.noConfusion hh)
          hvroot1 hvrec1 ?_
        dsimp only
        rw [Nat.min_self, state_update_self s1 _ _ hvroot1]
        exact htail
      have hself : Exec (.procLoop ⟨i'' + 2, 1⟩
          ((i'' + 2, 1) :: (i'' + 3, 1) :: itemSeg (i'' + 4) (k - i'' - 3))
          (lowState k (i'' + 2) s)) (.ok (.notFound, s1)) :=
        Exec_item_self ⟨i'' + 2, 1⟩ _ (lowState k (i'' + 2) s) _ hslowtc
          (hslowexec (i'' + 2) (by omega) (by omega)) rfl hrecitem
      have hA3 : itemSeg (i'' + 2) (k - 1 - i'') =
          (i'' + 2, 1) :: (i'' + 3, 1) :: itemSeg (i'' + 4) (k - i'' - 3) := by
        rw [show k - 1 - i'' = (k - i'' - 3) + 1 + 1 by omega, itemSeg_cons, itemSeg_cons]
      refine ⟨s1, hpush _ ?_, htc1, hid1, hstk1, hsccs1, hvis1, hexec1, hfound1⟩
      rw [hA1, hA2, hA3]
      exact hitem1 _ _ (hpre _ _ hself)
    · -- the root is the last cycle vertex `(k, 1)`: no unvisited dependency left
      have hkeq : i'' + 2 = k := Nat.le_antisymm hik hcase
      have hfin : Exec (.finishConnect ⟨i'' + 2, 1⟩ (lowState k (i'' + 2) s))
          (.ok (.notFound, lowState k (i'' + 2) s)) :=
        Exec_finish_notFound _ _ _ (lowState_idx_self k (i'' + 2) s) (by dsimp only; omega)
      have hnil : Exec (.procLoop ⟨i'' + 2, 1⟩ [] (lowState k (i'' + 2) s))
          (.ok (.notFound, lowState k (i'' + 2) s)) :=
        Exec_procLoop_nil _ _ _ hfin
      have hself : Exec (.procLoop ⟨i'' + 2, 1⟩ ((i'' + 2, 1) :: []) (lowState k (i'' + 2) s))
          (.ok (.notFound, lowState k (i'' + 2) s)) :=
        Exec_item_self ⟨i'' + 2, 1⟩ [] (lowState k (i'' + 2) s) _ hslowtc
          (hslowexec (i'' + 2) (by omega) (by omega)) rfl hnil
      have hA3 : itemSeg (i'' + 2) (k - 1 - i'') = (i'' + 2, 1) :: [] := by
        rw [show k - 1 - i'' = 0 + 1 by omega, itemSeg_cons]
        rfl
      have hdone : CycleDone k (lowState k (i'' + 2) s) := by
        refine ⟨hslowtc, hkeq, ?_, hsccs, ?_, hslowexec, hfound⟩
        · exact congrArg stackOf hkeq
        · intro j hj1 hj2
          by_cases hji : j = i'' + 2
          · subst hji
            exact lowState_idx_self k (i'' + 2) s
          · rw [lowState_idx_ne k (i'' + 2) s ⟨j, 1⟩ (dot_ne_of_src hji)]
            exact hvis j hj1 (by omega)
      refine ⟨lowState k (i'' + 2) s, hpush _ ?_, hdone⟩
      rw [hA1, hA2, hA3]
      exact hitem1 _ _ (hpre _ _ hself)

/-- The full root traversal of the `k`-cycle from `(1, 1)`: visit the whole
cycle, close the SCC at the root and emit it as the single SCC
`{(1,1), ..., (k,1)}` in `Dot` order. -/
lemma cycle_root (k : Nat) (hk : 1 ≤ k) (s : GraphState) (hentry : CycleEntry k 1 s) :
    ∃ s', Exec (.sc ⟨1, 1⟩ s) (.ok (.found, s')) ∧
      s'.finder.sccs = [dotSeg 1 k] ∧ s'.finder.stack = [] ∧ s'.found = k := by
  obtain ⟨htc, hid, hstk, hsccs, hvis, hunvis, hexec, hfound⟩ := hentry
  have hid' : s.finder.id = 0 := hid
  have hstk' : s.finder.stack = stackOf 0 := hstk
  have hvroot : s.index ⟨1, 1⟩ = some ⟨⟨1, 1⟩, cmdA, cycleClock k, 0, 0, false⟩ :=
    hunvis 1 le_rfl hk
  have hslowtc : (lowState k 1 s).finder.transitiveConflicts = false := htc
  have hslowexec : ∀ p, 1 ≤ p → p ≤ k →
      (lowState k 1 s).executed.procs p = some [] := hexec
  -- the pop phase applies once the whole cycle sits on the stack
  have hfinish : ∀ (sdone : GraphState), CycleDone k sdone →
      ∃ s', Exec (.finishConnect ⟨1, 1⟩ sdone) (.ok (.found, s')) ∧
        s'.finder.sccs = [dotSeg 1 k] ∧ s'.finder.stack = [] ∧ s'.found = k := by
    intro sdone hdone
    obtain ⟨htc1, hid1, hstk1, hsccs1, hvis1, hexec1, hfound1⟩ := hdone
    obtain ⟨sfin, hpop, hfsccs, hfstk, hffound⟩ :=
      Exec_pop k k hk le_rfl sdone hstk1 hsccs1 (by rw [hfound1, Nat.sub_self]) hvis1 hexec1
    rw [dotSeg_empty (k + 1) k (by omega)] at hpop
    exact ⟨sfin,
      Exec_finish_pop ⟨1, 1⟩ sdone _ _ (hvis1 1 le_rfl hk) rfl hpop,
      hfsccs, hfstk, hffound⟩
  -- the push itself
  have hpush : ∀ (r : Except RustPanic (FinderResult × GraphState)),
      Exec (.procLoop ⟨1, 1⟩ (cycleClock k) (lowState k 1 s)) r →
      Exec (.sc ⟨1, 1⟩ s) r := by
    intro r hr
    refine Exec_sc ⟨1, 1⟩ s _ r hvroot ?_
    dsimp only
    rw [hid', show (0 : Nat) + 1 = 1 from rfl, hstk',
      show ((⟨1, 1⟩ : Dot) :: stackOf 0 : List Dot) = stackOf 1 from (stackOf_succ 0).symm]
    exact hr
  rcases Nat.lt_or_ge k 2 with hk2 | hk2
  · -- a 1-cycle: the root's only clock item is itself
    have hk1 : k = 1 := by omega
    subst hk1
    have hdone : CycleDone 1 (lowState 1 1 s) := by
      refine ⟨hslowtc, rfl, rfl, hsccs, ?_, hslowexec, hfound⟩
      intro j hj1 hj2
      have hj : j = 1 := by omega
      subst hj
      exact lowState_idx_self 1 1 s
    obtain ⟨sfin, hfin, hfsccs, hfstk, hffound⟩ := hfinish (lowState 1 1 s) hdone
    refine ⟨sfin, hpush _ ?_, hfsccs, hfstk, hffound⟩
    exact Exec_item_self ⟨1, 1⟩ [] (lowState 1 1 s) _ hslowtc
      (hslowexec 1 le_rfl le_rfl) rfl (Exec_procLoop_nil _ _ _ hfin)
  · -- `k ≥ 2`: the recursion visits `(2, 1), ..., (k, 1)`
    have hentry2 : CycleEntry k 2 (lowState k 1 s) := by
      refine ⟨hslowtc, rfl, rfl, hsccs, ?_, ?_, hslowexec, hfound⟩
      · intro j hj1 hj2
        have hj : j = 1 := by omega
        subst hj
        exact lowState_idx_self k 1 s
      · intro j hj1 hj2
        rw [lowState_idx_ne k 1 s ⟨j, 1⟩ (dot_ne_of_src (by omega))]
        exact hunvis j (by omega) hj2
    obtain ⟨s1, hrec, hdone1⟩ :=
      cycle_visit k (k - 1) 2 (by omega) le_rfl hk2 (lowState k 1 s) hentry2
    obtain ⟨sfin, hfin, hfsccs, hfstk, hffound⟩ := hfinish s1 hdone1
    obtain ⟨htc1, hid1, hstk1, hsccs1, hvis1, hexec1, hfound1⟩ := hdone1
    have hvroot1 : s1.index ⟨1, 1⟩ = some ⟨⟨1, 1⟩, cmdA, cycleClock k, 1, 1, true⟩ :=
      hvis1 1 le_rfl hk
    have hvrec1 : s1.index ⟨2, 1⟩ = some ⟨⟨2, 1⟩, cmdA, cycleClock k, 2, 1, true⟩ :=
      hvis1 2 (by omega) hk2
    have hnil : Exec (.procLoop ⟨1, 1⟩ [] s1) (.ok (.found, sfin)) :=
      Exec_procLoop_nil _ _ _ hfin
    have htail : Exec (.procLoop ⟨1, 1⟩ (itemSeg 3 (k - 2) ++ []) s1)
        (.ok (.found, sfin)) := by
      refine Exec_seg_onstack (k - 2) 3 [] s1 ⟨1, 1⟩ _ _ htc1 hvroot1 rfl rfl ?_ hnil
      intro j hj1 hj2
      exact ⟨hexec1 j (by omega) (by omega), dot_ne_of_src (by omega), by omega,
        ⟨⟨⟨j, 1⟩, cmdA, cycleClock k, j, 1, true⟩, hvis1 j (by omega) (by omega), rfl, rfl, rfl⟩⟩
    rw [List.append_nil] at htail
    have hvj : (lowState k 1 s).index ⟨2, 1⟩ =
        some ⟨⟨2, 1⟩, cmdA, cycleClock k, 0, 0, false⟩ := by
      rw [lowState_idx_ne k 1 s ⟨2, 1⟩ (dot_ne_of_src (by omega))]
      exact hunvis 2 (by omega) hk2
    have hrecitem : Exec (.procLoop ⟨1, 1⟩ ((2, 1) :: itemSeg 3 (k - 2)) (lowState k 1 s))
        (.ok (.found, sfin)) := by
      refine Exec_item_recurse ⟨1, 1⟩ 2 _ (lowState k 1 s) s1 _ _ _ _ _ .notFound
        hslowtc (hslowexec 2 (by omega) hk2) hvj rfl (dot_ne_of_src (by omega))
        (lowState_idx_self k 1 s) (conflicts_cmdA _ _ rfl rfl) hrec
        (fun d hh => FinderResult.noConfusion hh) hvroot1 hvrec1 ?_
      dsimp only
      rw [Nat.min_self, state_update_self s1 _ _ hvroot1]
      exact htail
    have hself : Exec (.procLoop ⟨1, 1⟩ ((1, 1) :: (2, 1) :: itemSeg 3 (k - 2))
        (lowState k 1 s)) (.ok (.found, sfin)) :=
      Exec_item_self ⟨1, 1⟩ _ (lowState k 1 s) _ hslowtc
        (hslowexec 1 le_rfl hk) rfl hrecitem
    have hB : cycleClock k = (1, 1) :: (2, 1) :: itemSeg 3 (k - 2) := by
      rw [show cycleClock k = itemSeg 1 k from rfl]
      nth_rewrite 1 [show k = (k - 2) + 1 + 1 by omega]
      rw [itemSeg_cons, itemSeg_cons]
    refine ⟨sfin, hpush _ ?_, hfsccs, hfstk, hffound⟩
    rw [hB]
    exact hself

lemma runSccs_sorted (fuel : Nat) (c : TCall) (hinv : sccSortedInv c) :
    ∀ scc ∈ runSccs fuel c, List.Chain' dotLt scc := by
  intro scc hscc
  unfold runSccs at hscc
  cases h : tarjanRun fuel c with
  | none =>
    rw [h] at hscc
    simp at hscc
  | some r =>
    rw [h] at hscc
    cases r with
    | error e => simp at hscc
    | ok pr =>
      obtain ⟨res, s'⟩ := pr
      dsimp only at hscc
      exact tarjanRun_sccs_sorted fuel c res s' h hinv scc hscc

/-- The initial cycle state satisfies the traversal-entry invariant at the
root `(1, 1)`. -/
lemma cycleState_entry (k : Nat) : CycleEntry k 1 (cycleState k) := by
  refine ⟨rfl, rfl, rfl, rfl, ?_, ?_, ?_, rfl⟩
  · intro j hj1 hj2
    exact absurd hj2 (by omega)
  · intro j hj1 hj2
    show cycleIndex k ⟨j, 1⟩ = _
    simp only [cycleIndex]
    rw [if_pos ⟨hj1, hj2, trivial⟩]
  · intro p hp1 hp2
    simp only [cycleState]
    rw [if_pos ⟨hp1, hp2⟩]

/-- C3: every SCC the `strong_connect` interpreter emits lists its member
dots in strictly increasing `Dot` order, and on the graph of `k` mutually
dependent committed commands the root traversal from `(1, 1)` terminates with
`Found`, emitting exactly one SCC that contains exactly the `k` cycle dots
`(1,1) .. (k,1)` (in `Dot` order), with the stack empty and all `k` commands
counted as found. -/
theorem c3_scc_order_and_cycle :
    (∀ (fuel : Nat) (c : TCall), sccSortedInv c →
      ∀ scc ∈ runSccs fuel c, List.Chain' dotLt scc) ∧
    (∀ k, 1 ≤ k →
      ∃ s', Exec (.sc ⟨1, 1⟩ (cycleState k)) (.ok (.found, s')) ∧
        s'.finder.sccs = [cycleDots k] ∧ s'.finder.stack = [] ∧ s'.found = k) := by
  constructor
  · intro fuel c hinv scc hscc
    exact runSccs_sorted fuel c hinv scc hscc
  · intro k hk
    obtain ⟨s', h1, h2, h3, h4⟩ := cycle_root k hk (cycleState k) (cycleState_entry k)
    exact ⟨s', h1, h2, h3, h4⟩

/-- Witness for C3: the sortedness hypothesis is discharged by evaluation at
the 3-cycle's root call, and the cycle statement is instantiated at `k = 3`. -/
theorem c3_witness :
    (sccSortedInv (.sc ⟨1, 1⟩ (cycleState 3)) ∧
      ∀ scc ∈ runSccs 100 (.sc ⟨1, 1⟩ (cycleState 3)), List.Chain' dotLt scc) ∧
    (1 ≤ 3 ∧ ∃ s', Exec (.sc ⟨1, 1⟩ (cycleState 3)) (.ok (.found, s')) ∧
      s'.finder.sccs = [cycleDots 3] ∧ s'.finder.stack = [] ∧ s'.found = 3) :=
  ⟨⟨fun x hx => absurd hx (List.not_mem_nil x),
    c3_scc_order_and_cycle.1 100 _ (fun x hx => absurd hx (List.not_mem_nil x))⟩,
   ⟨by decide, c3_scc_order_and_cycle.2 3 (by decide)⟩⟩

end PlanetSim
